import Mathlib

/-!
# Verification of the siko compiler front-end and evaluator

A shallow embedding of the siko tree-walking interpreter
(`crates/siko_interpreter/src/interpreter.rs`), the type checker's
unifier (`crates/siko_type_checker/src/type_store.rs`), the instance
resolver's conflict check
(`crates/siko_type_checker/src/instance_resolver.rs`) and the expression
typer's `Formatter` rule
(`crates/siko_type_checker/src/expr_processor.rs`), together with
theorems settling the spec's claims about them.

Identifiers (`ExprId`, `PatternId`, `FunctionId`, `TypeDefId`, `ClassId`,
`ClassMemberId`, `InstanceId`, `TypeId`, `LocationId`) are dense indices
in the source; they are all embedded as `Nat`.  Tables
(`ItemContainer`, `BTreeMap`) are embedded as lookup functions or
association lists.  Rust panics (`panic!`, `unreachable!`, `expect`,
out-of-bounds indexing, failed `assert!`) are embedded as `Except`
errors; the interpreter's mutual recursion is made total with a fuel
parameter, exhaustion being a distinguished error.
-/

namespace Siko

/-- Stand-in for Rust `f64`: an uninterpreted bit pattern.  The
interpreter core never computes with floats, it only compares pattern
literals against values; IEEE `==` is abstracted as bit equality here
(no claim in this development depends on float semantics). -/
structure F64 where
  bits : Nat
deriving DecidableEq, Repr

/-- Runtime errors of the embedded interpreter.  `outOfFuel` is an
artifact of the embedding; every other constructor corresponds to a
Rust panic site (`panic!`, `unreachable!`, `expect`, failed `assert!`,
out-of-bounds slice indexing). -/
inductive RtError where
  | outOfFuel
  | notFound
  | assertionFailed
  | cannotCall
  | missingInstance
  | unreachableState
  | indexOutOfBounds
deriving DecidableEq, Repr

/-- `ConcreteType` from `crates/siko_ir/src/types.rs`: runtime types
with no variables. -/
inductive ConcreteType where
  | Tuple (items : List ConcreteType)
  | Named (name : String) (id : Nat) (args : List ConcreteType)
  | Function (a b : ConcreteType)

mutual
/-- Structural equality on `ConcreteType` (the derived `Eq`/`Ord` used
by `BTreeMap<ConcreteType, _>` keys in the source). -/
def ConcreteType.beqC : ConcreteType → ConcreteType → Bool
  | .Tuple xs, .Tuple ys => ConcreteType.beqList xs ys
  | .Named n1 i1 xs, .Named n2 i2 ys => n1 == n2 && i1 == i2 && ConcreteType.beqList xs ys
  | .Function a1 b1, .Function a2 b2 => ConcreteType.beqC a1 a2 && ConcreteType.beqC b1 b2
  | _, _ => false
def ConcreteType.beqList : List ConcreteType → List ConcreteType → Bool
  | [], [] => true
  | x :: xs, y :: ys => ConcreteType.beqC x y && ConcreteType.beqList xs ys
  | _, _ => false
end

/-- `SubstitutionContext` from `crates/siko_ir/src/types.rs` (the file
in the snapshot does not carry its definition). Modelled from the spec:
"A mapping from schematic type variable indices (those appearing in a
callee's schematic type) to concrete types." -/
abbrev SubstitutionContext := List (Nat × ConcreteType)

/-- Association-list lookup keyed by a boolean equality, standing in for
`BTreeMap::get`. -/
def alookupBy {κ α : Type} (eqk : κ → κ → Bool) : List (κ × α) → κ → Option α
  | [], _ => none
  | (k, v) :: rest, key => if eqk k key then some v else alookupBy eqk rest key

/-- Lookup in a substitution context. -/
def SubstitutionContext.find (ctx : SubstitutionContext) (idx : Nat) : Option ConcreteType :=
  alookupBy (· == ·) ctx idx

/-- Schematic `Type` from `crates/siko_ir/src/types.rs` (the
`TypeId`-indexed representation the interpreter reads through
`program.types`). -/
inductive IRType where
  | Tuple (items : List Nat)
  | Function (dom cod : Nat)
  | TypeArgument (index : Nat) (constraints : List Nat)
  | Named (name : String) (id : Nat) (args : List Nat)
deriving DecidableEq, Repr

/-- `VariantItem` from `crates/siko_ir/src/types.rs`. -/
structure VariantItem where
  type_signature_id : Nat
deriving DecidableEq, Repr

/-- `Variant` from `crates/siko_ir/src/types.rs` (fields used by the
interpreter). -/
structure VariantD where
  name : String
  items : List VariantItem
deriving DecidableEq, Repr

/-- `Adt` from `crates/siko_ir/src/types.rs` (fields used by the
interpreter). -/
structure AdtD where
  name : String
  variants : List VariantD
deriving DecidableEq, Repr

/-- `RecordField` from `crates/siko_ir/src/types.rs`. -/
structure RecordFieldD where
  name : String
  type_signature_id : Nat
deriving DecidableEq, Repr

/-- `Record` from `crates/siko_ir/src/types.rs` (fields used by the
interpreter). -/
structure RecordD where
  name : String
  fields : List RecordFieldD
deriving DecidableEq, Repr

/-- `TypeDef` from `crates/siko_ir/src/types.rs`. -/
inductive TypeDef where
  | Record (r : RecordD)
  | Adt (a : AdtD)
deriving DecidableEq, Repr

/-- `ArgRef` expression payload, as read by the interpreter and the
typer (`arg_ref.id`, `arg_ref.index`, `arg_ref.captured`). -/
structure ArgRefE where
  id : Nat
  index : Nat
  captured : Bool
deriving DecidableEq, Repr

/-- `FieldAccessInfo` from `siko_ir::expr` (fields `record_id`,
`index` used by the interpreter). -/
structure FieldAccessInfo where
  record_id : Nat
  index : Nat
deriving DecidableEq, Repr

/-- A `case` of a `CaseOf` expression (`case.pattern_id`, `case.body`). -/
structure CaseE where
  pattern_id : Nat
  body : Nat
deriving DecidableEq, Repr

/-- A positional record item (`item.expr_id`, `item.index`) used by
`RecordInitialization` and `RecordUpdate`. -/
structure RecordInitItem where
  expr_id : Nat
  index : Nat
deriving DecidableEq, Repr

/-- A `RecordUpdate` arm (`update.record_id`, `update.items`). -/
structure RecordUpdateE where
  record_id : Nat
  items : List RecordInitItem
deriving DecidableEq, Repr

/-- `Expr` from `siko_ir::expr`.  The file is absent from the snapshot;
the constructors and their payloads are reconstructed exactly from the
exhaustive `match` in `Interpreter::eval_expr`
(`crates/siko_interpreter/src/interpreter.rs`). -/
inductive Expr where
  | IntegerLiteral (v : Int)
  | StringLiteral (v : String)
  | FloatLiteral (v : F64)
  | BoolLiteral (v : Bool)
  | ArgRef (r : ArgRefE)
  | StaticFunctionCall (f : Nat) (args : List Nat)
  | DynamicFunctionCall (f : Nat) (args : List Nat)
  | Do (exprs : List Nat)
  | Bind (pattern : Nat) (rhs : Nat)
  | ExprValue (var : Nat) (pattern : Nat)
  | If (cond tb eb : Nat)
  | Tuple (items : List Nat)
  | List (items : List Nat)
  | TupleFieldAccess (index : Nat) (tuple : Nat)
  | Formatter (fmt : String) (args : List Nat)
  | FieldAccess (infos : List FieldAccessInfo) (receiver : Nat)
  | CaseOf (body : Nat) (cases : List CaseE)
  | RecordInitialization (t : Nat) (items : List RecordInitItem)
  | RecordUpdate (receiver : Nat) (updates : List RecordUpdateE)
  | ClassFunctionCall (member : Nat) (args : List Nat)
deriving DecidableEq, Repr

/-- `Pattern` as matched by `Interpreter::match_pattern`
(`crates/siko_interpreter/src/interpreter.rs`; the sibling
`siko_ir/src/pattern.rs` in the snapshot is an older revision without
`BoolLiteral`). -/
inductive Pattern where
  | Binding (name : String)
  | Tuple (ids : List Nat)
  | Record (t : Nat) (ids : List Nat)
  | Variant (t : Nat) (index : Nat) (ids : List Nat)
  | Guarded (id : Nat) (guard : Nat)
  | Typed (id : Nat) (sig : Nat)
  | Wildcard
  | IntegerLiteral (v : Int)
  | FloatLiteral (v : F64)
  | StringLiteral (v : String)
  | BoolLiteral (v : Bool)
deriving DecidableEq, Repr

mutual
/-- `ValueCore` from `siko_interpreter::value` (file absent). Modelled
from the spec: `Int | Float | Bool | String | Tuple | List | Record |
Variant | Callable`, with the payloads the interpreter matches on. -/
inductive ValueCore where
  | Int (v : Int)
  | Float (v : F64)
  | Bool (v : Bool)
  | String (v : String)
  | Tuple (vs : List Value)
  | List (vs : List Value)
  | Record (id : Nat) (vs : List Value)
  | Variant (id : Nat) (index : Nat) (vs : List Value)
  | Callable (c : CallableV)
/-- `Value` from `siko_interpreter::value` (file absent). Modelled from
the spec: "Every value carries its concrete type." -/
inductive Value where
  | mk (core : ValueCore) (ty : ConcreteType)
/-- `Callable` from `siko_interpreter::value` (file absent). Modelled
from the spec: "a runtime value carrying a function id, already-supplied
arguments, and the substitution context under which it will eventually
run." -/
inductive CallableV where
  | mk (function_id : Nat) (values : List Value) (sub_context : SubstitutionContext)
end

/-- The `core` field of a `Value`. -/
def Value.core : Value → ValueCore
  | .mk c _ => c

/-- The `ty` field of a `Value`. -/
def Value.ty : Value → ConcreteType
  | .mk _ t => t

/-- The `function_id` field of a `Callable`. -/
def CallableV.function_id : CallableV → Nat
  | .mk f _ _ => f

/-- The `values` field of a `Callable`. -/
def CallableV.values : CallableV → List Value
  | .mk _ vs _ => vs

/-- The `sub_context` field of a `Callable`. -/
def CallableV.sub_context : CallableV → SubstitutionContext
  | .mk _ _ s => s

/-- `Environment` from `siko_interpreter::environment` (file absent).
Modelled from the spec: "A linked-stack of frames; each frame holds a
mapping from `PatternId` to value and a positional slice of argument
values. `block_child(parent)` creates an inner frame that defers name
lookup to its parent when not found locally."  `head` is the innermost
frame's bindings, `tail` the enclosing frames'; `args` is the positional
argument slice of the owning call. -/
structure Environment where
  func_id : Nat
  head : List (Nat × Value)
  tail : List (List (Nat × Value))
  args : List Value
  implicit_arg_count : Nat

/-- `Environment::new(id, args, implicit_arg_count)`. -/
def Environment.new (fid : Nat) (args : List Value) (implicit : Nat) : Environment :=
  ⟨fid, [], [], args, implicit⟩

/-- `Environment::block_child(parent)`. -/
def Environment.block_child (e : Environment) : Environment :=
  { e with head := [], tail := e.head :: e.tail }

/-- `Environment::add(pattern_id, value)`: bind a pattern id in the
innermost frame. -/
def Environment.add (e : Environment) (pid : Nat) (v : Value) : Environment :=
  { e with head := (pid, v) :: e.head }

/-- Lookup through a frame stack, innermost first. -/
def lookupFrames : List (List (Nat × Value)) → Nat → Option Value
  | [], _ => none
  | f :: fs, pid =>
    match alookupBy (· == ·) f pid with
    | some v => some v
    | none => lookupFrames fs pid

/-- `Environment::get_value(pattern_id)`. -/
def Environment.get_value (e : Environment) (pid : Nat) : Option Value :=
  lookupFrames (e.head :: e.tail) pid

/-- `Environment::get_arg(arg_ref)`.  Modelled from the spec: "for
non-captured refs the slot index is offset by the implicit-arg count"
(mirroring the typer's `ArgRef` rule in `expr_processor.rs`). -/
def Environment.get_arg (e : Environment) (r : ArgRefE) : Option Value :=
  e.args.get? (if r.captured then r.index else e.implicit_arg_count + r.index)

/-- `Environment::get_arg_by_index(index)`.  Modelled from the spec:
"Externs read positional arguments from `env.get_arg_by_index(i)`." -/
def Environment.get_arg_by_index (e : Environment) (i : Nat) : Option Value :=
  e.args.get? i

/-- `NamedFunctionInfo` (fields used by `Interpreter::execute`). -/
structure NamedFunctionInfo where
  body : Option Nat
  module : String
  name : String
  kind : Nat
deriving DecidableEq, Repr

/-- `LambdaInfo` (field used by `Interpreter::execute`). -/
structure LambdaInfo where
  body : Nat
deriving DecidableEq, Repr

/-- `VariantConstructorInfo` (fields used by `Interpreter::execute`). -/
structure VariantCtorInfo where
  type_id : Nat
  index : Nat
deriving DecidableEq, Repr

/-- `RecordConstructorInfo` (field used by `Interpreter::execute`). -/
structure RecordCtorInfo where
  type_id : Nat
deriving DecidableEq, Repr

/-- `FunctionInfo` from `siko_ir::function` (file absent), constructors
as matched by `Interpreter::execute`. -/
inductive FunctionInfo where
  | NamedFunction (info : NamedFunctionInfo)
  | Lambda (info : LambdaInfo)
  | VariantConstructor (info : VariantCtorInfo)
  | RecordConstructor (info : RecordCtorInfo)
deriving DecidableEq, Repr

/-- `Function` from `siko_ir::function` (file absent).  `arg_count`
stands for `arg_locations.len()`, the only use the interpreter makes of
`arg_locations`; the spec records "every function's arg count". -/
structure FunctionD where
  arg_count : Nat
  implicit_arg_count : Nat
  info : FunctionInfo

/-- `ClassMember` (fields used by `Interpreter::call_class_member`). -/
structure ClassMemberD where
  class_id : Nat
  name : String
  default_implementation : Option Nat
deriving DecidableEq, Repr

/-- An instance's member binding (`instance_member.function_id`). -/
structure InstanceMemberD where
  function_id : Nat
deriving DecidableEq, Repr

/-- `Instance` (field used by `Interpreter::call_class_member`). -/
structure InstanceD where
  members : List (String × InstanceMemberD)

/-- `Class` as used by `call_specific_class_member` (named member
table).  The `class.rs` in the snapshot is an older revision without
the member table; modelled from the spec: "Class: name, ordered member
names → ClassMemberId". -/
structure ClassD where
  name : String
  members : List (String × Nat)

/-- `Program` from `siko_ir::program`: the tables the interpreter
reads.  `string_id` backs `string_concrete_type()` (method absent from
the snapshot; the spec names `String` as a built-in named type). -/
structure Program where
  exprs : Nat → Option Expr
  patterns : Nat → Option Pattern
  functions : Nat → Option FunctionD
  typedefs : Nat → Option TypeDef
  types : Nat → Option IRType
  expr_types : Nat → Option Nat
  function_types : Nat → Option Nat
  class_members : Nat → Option ClassMemberD
  class_member_types : Nat → Option (Nat × Nat)
  classes : Nat → Option ClassD
  class_names : String → Option Nat
  instances : Nat → Option InstanceD
  instance_map : Nat → Option (List (ConcreteType × Nat))
  string_id : Nat

/-- `Program::string_concrete_type()` (absent from the snapshot).
Modelled from the spec: the built-in `String` named type. -/
def Program.string_concrete_type (p : Program) : ConcreteType :=
  .Named "String" p.string_id []

/-- The extern-function call contract (spec §6): an extern reads
positional arguments from the environment and returns a value of the
expected concrete type.  `kind` abstracts `NamedFunctionKind`. -/
abbrev ExternFn := Environment → Option Nat → Nat → ConcreteType → Except RtError Value

/-- The interpreter state: the program plus the extern registry keyed
by `(module, name)`. -/
structure Interp where
  program : Program
  externs : String → String → Option ExternFn

end Siko

namespace Siko

/-- `ConcreteType::get_func_type(arg_count)` (method absent from the
snapshot).  Modelled from the spec: drop the first `arg_count` argument
positions of a curried concrete function type; `none` when the type has
too few arrows (a panic in the source). -/
def ConcreteType.get_func_type : ConcreteType → Nat → Option ConcreteType
  | t, 0 => some t
  | .Function _ b, n+1 => b.get_func_type n
  | _, _+1 => none

mutual
/-- `Program::to_concrete_type(type_id, sub_context)` (method absent
from the snapshot).  Modelled from the spec: a concrete type is
"obtained from a schematic type by applying a substitution context";
type variables are replaced by their binding, structure is preserved.
Fuel guards against cyclic type tables; `none` is a panic in the
source. -/
def to_concrete_type (P : Program) : Nat → Nat → SubstitutionContext → Option ConcreteType
  | 0, _, _ => none
  | n+1, tid, ctx =>
    match P.types tid with
    | none => none
    | some (.TypeArgument idx _) => ctx.find idx
    | some (.Tuple ids) => (toConcreteList P n ids ctx).map .Tuple
    | some (.Function a b) => do
      let ca ← to_concrete_type P n a ctx
      let cb ← to_concrete_type P n b ctx
      pure (.Function ca cb)
    | some (.Named nm id args) => (toConcreteList P n args ctx).map (.Named nm id)
def toConcreteList (P : Program) : Nat → List Nat → SubstitutionContext → Option (List ConcreteType)
  | 0, _, _ => none
  | _+1, [], _ => some []
  | n+1, tid :: rest, ctx => do
    let c ← to_concrete_type P n tid ctx
    let cs ← toConcreteList P n rest ctx
    pure (c :: cs)
end

/-- `FunctionType::get_arg_and_return_types(program, arg_types,
arg_count)` (absent from the snapshot).  Modelled from the spec: walk
the curried schematic function type left-to-right collecting
`arg_count` argument type ids, returning them with the tail's type
id. -/
def collect_arg_types (P : Program) : Nat → Nat → Nat → Option (List Nat × Nat)
  | _, tid, 0 => some ([], tid)
  | 0, _, _+1 => none
  | n+1, tid, k+1 =>
    match P.types tid with
    | some (.Function a b) =>
      (collect_arg_types P n b k).map (fun r => (a :: r.1, r.2))
    | _ => none

/-- `Interpreter::get_func_arg_types(ty_id, arg_count)` from
`crates/siko_interpreter/src/interpreter.rs`: for a function type with
`arg_count > 0` split off the first `arg_count` argument types;
otherwise the type itself with no arguments. -/
def get_func_arg_types (P : Program) (fuel tyId argc : Nat) : Option (List Nat × Nat) :=
  match P.types tyId with
  | none => none
  | some (.Function _ _) =>
    if argc = 0 then some ([], tyId) else collect_arg_types P fuel tyId argc
  | some _ => some ([], tyId)

mutual
/-- `Program::match_generic_types(concrete, type_id, sub_context)`
(method absent from the snapshot).  Modelled from the spec (§4.5):
structurally match the callee's schematic type against a concrete type,
recording for each schematic variable the corresponding concrete
sub-type; the first binding of a variable is kept. -/
def match_generic_types (P : Program) : Nat → ConcreteType → Nat → SubstitutionContext →
    Option SubstitutionContext
  | 0, _, _, _ => none
  | n+1, cty, tid, ctx =>
    match P.types tid with
    | none => none
    | some (.TypeArgument idx _) =>
      match ctx.find idx with
      | some _ => some ctx
      | none => some (ctx ++ [(idx, cty)])
    | some (.Tuple ids) =>
      match cty with
      | .Tuple cs => matchGenericList P n cs ids ctx
      | _ => none
    | some (.Function a b) =>
      match cty with
      | .Function ca cb => do
        let ctx ← match_generic_types P n ca a ctx
        match_generic_types P n cb b ctx
      | _ => none
    | some (.Named _ _ args) =>
      match cty with
      | .Named _ _ cs => matchGenericList P n cs args ctx
      | _ => none
def matchGenericList (P : Program) : Nat → List ConcreteType → List Nat → SubstitutionContext →
    Option SubstitutionContext
  | 0, _, _, _ => none
  | _+1, [], [], ctx => some ctx
  | n+1, c :: cs, tid :: tids, ctx => do
    let ctx ← match_generic_types P n c tid ctx
    matchGenericList P n cs tids ctx
  | _+1, _, _, _ => none
end

/-- Fold of `match_generic_types` over paired argument values and
schematic argument types, as in the `zip` loop of
`Interpreter::get_subtitution_context`. -/
def matchArgsCtx (P : Program) (fuel : Nat) :
    List (Value × Nat) → SubstitutionContext → Option SubstitutionContext
  | [], ctx => some ctx
  | (v, tid) :: rest, ctx => do
    let ctx ← match_generic_types P fuel v.ty tid ctx
    matchArgsCtx P fuel rest ctx

/-- `Interpreter::get_subtitution_context(func_arg_types, args,
return_type, func_return_type)` from
`crates/siko_interpreter/src/interpreter.rs` (the source spells
"subtitution"): match each argument value's concrete type against the
corresponding schematic argument type, then the expected result type
against the schematic return type. -/
def get_subtitution_context (P : Program) (fuel : Nat) (func_arg_types : List Nat)
    (args : List Value) (return_type : ConcreteType) (func_return_type : Nat) :
    Option SubstitutionContext := do
  let ctx ← matchArgsCtx P fuel (args.zip func_arg_types) []
  match_generic_types P fuel return_type func_return_type ctx

/-- Rust `str::split("{}")` on a character list: the pieces of the
format string between non-overlapping occurrences of `{}`, scanned
left to right (always one more piece than occurrences). -/
def splitFmt (s : List Char) : List (List Char) :=
  match s with
  | [] => [[]]
  | c :: rest =>
    if c = '{' ∧ rest.head? = some '}' then [] :: splitFmt rest.tail
    else
      match splitFmt rest with
      | p :: ps => (c :: p) :: ps
      | [] => [[c]]
  termination_by s.length
  decreasing_by
    · simp [List.length_tail]; omega
    · simp

/-- The number of non-overlapping occurrences of the placeholder `{}`
in a format string, scanned left to right (the spec's
`fmt.count("{}")`). -/
def countPlaceholders (s : List Char) : Nat :=
  match s with
  | [] => 0
  | c :: rest =>
    if c = '{' ∧ rest.head? = some '}' then countPlaceholders rest.tail + 1
    else countPlaceholders rest
  termination_by s.length
  decreasing_by
    · simp [List.length_tail]; omega
    · simp

end Siko

namespace Siko

/-- The `for info in infos` loop of `Expr::FieldAccess` evaluation:
the first candidate whose `record_id` matches the runtime record id
selects the field; no match is `unreachable!`. -/
def findField : List FieldAccessInfo → Nat → List Value → Except RtError Value
  | [], _, _ => throw .unreachableState
  | info :: infos, id, vs =>
    if info.record_id = id then
      match vs.get? info.index with
      | some v => pure v
      | none => throw .indexOutOfBounds
    else findField infos id vs

/-- The argument-gathering loop of constructor execution, collecting
`k` positional arguments starting at index `i`. -/
def gatherArgsFrom (env : Environment) : Nat → Nat → Option (List Value)
  | _, 0 => some []
  | i, k+1 => do
    let v ← env.get_arg_by_index i
    let vs ← gatherArgsFrom env (i+1) k
    pure (v :: vs)

/-- The argument-gathering loop of constructor execution
(`for index in 0..len { environment.get_arg_by_index(index) }`). -/
def gatherArgs (env : Environment) (k : Nat) : Option (List Value) :=
  gatherArgsFrom env 0 k

set_option maxHeartbeats 3200000 in
mutual

/-- `Interpreter::eval_expr(expr_id, environment, sub_context)` from
`crates/siko_interpreter/src/interpreter.rs`.  Returns the value
together with the caller's environment after the call (the source
mutates it through `&mut`). -/
def evalExpr (I : Interp) : Nat → Nat → Environment → SubstitutionContext →
    Except RtError (Value × Environment)
  | 0, _, _, _ => throw .outOfFuel
  | n+1, eid, env, ctx => do
    let some expr := I.program.exprs eid | throw .notFound
    let some tyId := I.program.expr_types eid | throw .notFound
    let some exprTy := to_concrete_type I.program (n+1) tyId ctx | throw .notFound
    match expr with
    | .IntegerLiteral v => pure (Value.mk (.Int v) exprTy, env)
    | .StringLiteral v => pure (Value.mk (.String v) exprTy, env)
    | .FloatLiteral v => pure (Value.mk (.Float v) exprTy, env)
    | .BoolLiteral v => pure (Value.mk (.Bool v) exprTy, env)
    | .ArgRef r =>
      match env.get_arg r with
      | some v => pure (v, env)
      | none => throw .indexOutOfBounds
    | .StaticFunctionCall fid argIds => do
      let some funcTy := I.program.function_types fid | throw .notFound
      let some fr := get_func_arg_types I.program (n+1) funcTy argIds.length | throw .notFound
      let (argVals, env) ← evalList I n argIds env ctx
      let some calleeCtx :=
        get_subtitution_context I.program (n+1) fr.1 argVals exprTy fr.2 | throw .notFound
      let some cft := to_concrete_type I.program (n+1) funcTy calleeCtx | throw .notFound
      let callable := Value.mk (.Callable (CallableV.mk fid [] calleeCtx)) cft
      let r ← call I n callable argVals (some eid)
      pure (r, env)
    | .DynamicFunctionCall fExpr argIds => do
      let (fv, env) ← evalExpr I n fExpr env ctx
      let (argVals, env) ← evalList I n argIds env ctx
      let r ← call I n fv argVals (some eid)
      pure (r, env)
    | .Do exprIds =>
      if exprIds.isEmpty then throw .assertionFailed
      else do
        let r ← evalDo I n exprIds (Value.mk (.Tuple []) exprTy) env.block_child ctx
        pure (r.1, env)
    | .Bind pid rhs => do
      let (v, env) ← evalExpr I n rhs env ctx
      let (r, env) ← matchPattern I n pid v env ctx
      if r then pure (Value.mk (.Tuple []) exprTy, env) else throw .assertionFailed
    | .ExprValue _ pid =>
      match env.get_value pid with
      | some v => pure (v, env)
      | none => throw .notFound
    | .If cond tb eb => do
      let (cv, env) ← evalExpr I n cond env ctx
      match cv.core with
      | .Bool true => evalExpr I n tb env ctx
      | .Bool false => evalExpr I n eb env ctx
      | _ => throw .unreachableState
    | .Tuple ids => do
      let (vs, env) ← evalList I n ids env ctx
      pure (Value.mk (.Tuple vs) exprTy, env)
    | .List ids => do
      let (vs, env) ← evalList I n ids env ctx
      pure (Value.mk (.List vs) exprTy, env)
    | .TupleFieldAccess idx te => do
      let (tv, env) ← evalExpr I n te env ctx
      match tv.core with
      | .Tuple vs =>
        match vs.get? idx with
        | some v => pure (v, env)
        | none => throw .indexOutOfBounds
      | _ => throw .unreachableState
    | .Formatter fmt argIds => do
      let subs := splitFmt fmt.data
      let (vals, env) ← evalList I n argIds env ctx
      let s ← formatLoop I n subs vals ""
      pure (Value.mk (.String s) exprTy, env)
    | .FieldAccess infos re => do
      let (rv, env) ← evalExpr I n re env ctx
      match rv.core with
      | .Record id vs => do
        let v ← findField infos id vs
        pure (v, env)
      | _ => throw .unreachableState
    | .CaseOf body cases => do
      let (cv, env) ← evalExpr I n body env ctx
      let r ← caseLoop I n cases cv env ctx
      pure (r, env)
    | .RecordInitialization tid items => do
      let init := List.replicate items.length (Value.mk (.Bool false) exprTy)
      let (values, env) ← recordInitLoop I n items init env ctx
      pure (Value.mk (.Record tid values) exprTy, env)
    | .RecordUpdate re updates => do
      let (rv, env) ← evalExpr I n re env ctx
      match rv.core with
      | .Record id vs => do
        let (values, env) ← recordUpdateLoop I n updates id vs env ctx
        pure (Value.mk (.Record id values) exprTy, env)
      | _ => throw .unreachableState
    | .ClassFunctionCall mid argIds => do
      let (argVals, env) ← evalList I n argIds env ctx
      let r ← callClassMember I n mid argVals (some eid) exprTy
      pure (r, env)
  termination_by n _ _ _ => n

/-- The `args.iter().map(|arg| self.eval_expr(..)).collect()` idiom:
evaluate a list of expressions left to right, threading the (mutable)
environment. -/
def evalList (I : Interp) : Nat → List Nat → Environment → SubstitutionContext →
    Except RtError (List Value × Environment)
  | 0, _, _, _ => throw .outOfFuel
  | _+1, [], env, _ => pure ([], env)
  | n+1, eid :: rest, env, ctx => do
    let (v, env) ← evalExpr I n eid env ctx
    let (vs, env) ← evalList I n rest env ctx
    pure (v :: vs, env)
  termination_by n _ _ _ => n

/-- The `Expr::Do` body loop: evaluate each child in order, the running
`result` starting from the unit tuple. -/
def evalDo (I : Interp) : Nat → List Nat → Value → Environment → SubstitutionContext →
    Except RtError (Value × Environment)
  | 0, _, _, _, _ => throw .outOfFuel
  | _+1, [], acc, env, _ => pure (acc, env)
  | n+1, eid :: rest, _, env, ctx => do
    let (v, env) ← evalExpr I n eid env ctx
    evalDo I n rest v env ctx
  termination_by n _ _ _ _ => n

/-- `Interpreter::match_pattern(pattern_id, value, environment,
sub_context)` from `crates/siko_interpreter/src/interpreter.rs`.
Returns the match outcome together with the environment after the call
(the source mutates it through `&mut`). -/
def matchPattern (I : Interp) : Nat → Nat → Value → Environment → SubstitutionContext →
    Except RtError (Bool × Environment)
  | 0, _, _, _, _ => throw .outOfFuel
  | n+1, pid, v, env, ctx => do
    let some pat := I.program.patterns pid | throw .notFound
    match pat with
    | .Binding _ => pure (true, env.add pid v)
    | .Tuple ids =>
      match v.core with
      | .Tuple vs => matchList I n ids vs env ctx
      | _ => pure (false, env)
    | .Record ptid pids =>
      match v.core with
      | .Record tid vs =>
        if tid = ptid then matchList I n pids vs env ctx else pure (false, env)
      | _ => pure (false, env)
    | .Variant ptid pidx pids =>
      match v.core with
      | .Variant tid idx vs =>
        if tid = ptid ∧ idx = pidx then matchList I n pids vs env ctx else pure (false, env)
      | _ => pure (false, env)
    | .Guarded inner gid => do
      let (m, env) ← matchPattern I n inner v env ctx
      if m then do
        let (gv, env) ← evalExpr I n gid env ctx
        match gv.core with
        | .Bool b => pure (b, env)
        | _ => throw .unreachableState
      else pure (false, env)
    | .Typed inner _ => matchPattern I n inner v env ctx
    | .Wildcard => pure (true, env)
    | .IntegerLiteral pv =>
      match v.core with
      | .Int x => pure (decide (pv = x), env)
      | _ => pure (false, env)
    | .FloatLiteral pv =>
      match v.core with
      | .Float x => pure (decide (pv = x), env)
      | _ => pure (false, env)
    | .StringLiteral pv =>
      match v.core with
      | .String x => pure (decide (pv = x), env)
      | _ => pure (false, env)
    | .BoolLiteral pv =>
      match v.core with
      | .Bool x => pure (decide (pv = x), env)
      | _ => pure (false, env)
  termination_by n _ _ _ _ => n

/-- The `for (index, id) in ids.iter().enumerate()` loops of the
structural pattern cases: sub-patterns are matched against the value's
children pairwise; indexing past the end of the children panics;
children beyond the pattern list are ignored. -/
def matchList (I : Interp) : Nat → List Nat → List Value → Environment → SubstitutionContext →
    Except RtError (Bool × Environment)
  | 0, _, _, _, _ => throw .outOfFuel
  | _+1, [], _, env, _ => pure (true, env)
  | n+1, pid :: pids, vs, env, ctx =>
    match vs with
    | [] => throw .indexOutOfBounds
    | v :: vrest => do
      let (m, env) ← matchPattern I n pid v env ctx
      if m then matchList I n pids vrest env ctx else pure (false, env)
  termination_by n _ _ _ _ => n

/-- `Interpreter::call(callable_value, args, expr_id)` from
`crates/siko_interpreter/src/interpreter.rs`: append the new arguments
to the callable's collected values and enter the saturation loop. -/
def call (I : Interp) : Nat → Value → List Value → Option Nat → Except RtError Value
  | 0, _, _, _ => throw .outOfFuel
  | n+1, cv, args, eid =>
    match cv.core with
    | .Callable c =>
      callLoop I n (CallableV.mk c.function_id (c.values ++ args) c.sub_context) cv.ty eid
    | _ => throw .cannotCall
  termination_by n _ _ _ => n

/-- The `loop` inside `Interpreter::call`: under-saturated calls return
the callable (with `callable_func_ty` as its type); otherwise the first
`needed` values are executed and any excess is re-applied to the
resulting callable. -/
def callLoop (I : Interp) : Nat → CallableV → ConcreteType → Option Nat → Except RtError Value
  | 0, _, _, _ => throw .outOfFuel
  | n+1, c, ty, eid => do
    let some funcInfo := I.program.functions c.function_id | throw .notFound
    let needed := funcInfo.arg_count + funcInfo.implicit_arg_count
    if c.values.length < needed then
      pure (Value.mk (.Callable c) ty)
    else do
      let callArgs := c.values.take needed
      let rest := c.values.drop needed
      let env := Environment.new c.function_id callArgs funcInfo.implicit_arg_count
      let some ty2 := ty.get_func_type callArgs.length | throw .unreachableState
      let result ← execute I n c.function_id env eid c.sub_context ty2
      if rest.isEmpty then pure result
      else
        match result.core with
        | .Callable c2 =>
          callLoop I n (CallableV.mk c2.function_id (c2.values ++ rest) c2.sub_context)
            result.ty eid
        | _ => throw .unreachableState
  termination_by n _ _ _ => n

/-- `Interpreter::execute(id, environment, current_expr, sub_context,
expr_ty)` from `crates/siko_interpreter/src/interpreter.rs`. -/
def execute (I : Interp) : Nat → Nat → Environment → Option Nat → SubstitutionContext →
    ConcreteType → Except RtError Value
  | 0, _, _, _, _, _ => throw .outOfFuel
  | n+1, fid, env, cur, ctx, ty => do
    let some f := I.program.functions fid | throw .notFound
    match f.info with
    | .NamedFunction info =>
      match info.body with
      | some body => do
        let r ← evalExpr I n body env ctx
        pure r.1
      | none =>
        match I.externs info.module info.name with
        | some ext => ext env cur info.kind ty
        | none => throw .notFound
    | .Lambda info => do
      let r ← evalExpr I n info.body env ctx
      pure r.1
    | .VariantConstructor info => do
      let some td := I.program.typedefs info.type_id | throw .notFound
      match td with
      | .Adt adt =>
        match adt.variants.get? info.index with
        | some variant =>
          match gatherArgs env variant.items.length with
          | some values => pure (Value.mk (.Variant info.type_id info.index values) ty)
          | none => throw .indexOutOfBounds
        | none => throw .indexOutOfBounds
      | .Record _ => throw .unreachableState
    | .RecordConstructor info => do
      let some td := I.program.typedefs info.type_id | throw .notFound
      match td with
      | .Record record =>
        match gatherArgs env record.fields.length with
        | some values => pure (Value.mk (.Record info.type_id values) ty)
        | none => throw .indexOutOfBounds
      | .Adt _ => throw .unreachableState
  termination_by n _ _ _ _ _ => n

/-- `Interpreter::call_class_member(class_member_id, arg_values,
expr_id, expr_ty)` from `crates/siko_interpreter/src/interpreter.rs`. -/
def callClassMember (I : Interp) : Nat → Nat → List Value → Option Nat → ConcreteType →
    Except RtError Value
  | 0, _, _, _, _ => throw .outOfFuel
  | n+1, mid, argVals, eid, exprTy => do
    let some member := I.program.class_members mid | throw .notFound
    let some mty := I.program.class_member_types mid | throw .notFound
    let some fr := get_func_arg_types I.program (n+1) mty.1 argVals.length | throw .notFound
    let some calleeCtx :=
      get_subtitution_context I.program (n+1) fr.1 argVals exprTy fr.2 | throw .notFound
    let some selector := to_concrete_type I.program (n+1) mty.2 calleeCtx | throw .notFound
    let some cft := to_concrete_type I.program (n+1) mty.1 calleeCtx | throw .notFound
    match I.program.instance_map member.class_id with
    | none => throw .unreachableState
    | some instances =>
      match alookupBy ConcreteType.beqC instances selector with
      | some instId => do
        let some inst := I.program.instances instId | throw .notFound
        let memberFid :=
          match alookupBy (· == ·) inst.members member.name with
          | some im => some im.function_id
          | none => member.default_implementation
        match memberFid with
        | some fid2 =>
          call I n (Value.mk (.Callable (CallableV.mk fid2 [] calleeCtx)) cft) argVals eid
        | none => throw .notFound
      | none => throw .missingInstance
  termination_by n _ _ _ _ => n

/-- `Interpreter::call_specific_class_member(args, class_name,
member_name, expr_ty)`: resolve a class and member by name, then
dispatch. -/
def callSpecific (I : Interp) : Nat → List Value → String → String → ConcreteType →
    Except RtError Value
  | 0, _, _, _, _ => throw .outOfFuel
  | n+1, args, clsName, memName, ty => do
    let some classId := I.program.class_names clsName | throw .notFound
    let some cls := I.program.classes classId | throw .notFound
    let some mid := alookupBy (· == ·) cls.members memName | throw .notFound
    callClassMember I n mid args none ty
  termination_by n _ _ _ _ => n

/-- `Interpreter::call_show(arg)`: dispatch `Show.show` on the argument
and read the resulting string. -/
def callShow (I : Interp) : Nat → Value → Except RtError String
  | 0, _ => throw .outOfFuel
  | n+1, arg => do
    let v ← callSpecific I n [arg] "Show" "show" I.program.string_concrete_type
    match v.core with
    | .String s => pure s
    | _ => throw .unreachableState
  termination_by n _ => n

/-- The rendering loop of `Expr::Formatter` evaluation: emit each piece
of the split format string, following the `index`-th piece with
`show` of the `index`-th evaluated argument when one exists. -/
def formatLoop (I : Interp) : Nat → List (List Char) → List Value → String →
    Except RtError String
  | 0, _, _, _ => throw .outOfFuel
  | _+1, [], _, acc => pure acc
  | n+1, p :: ps, vals, acc =>
    match vals with
    | [] => formatLoop I n ps [] (acc ++ String.mk p)
    | v :: vs => do
      let s ← callShow I n v
      formatLoop I n ps vs (acc ++ String.mk p ++ s)
  termination_by n _ _ _ => n

/-- The `for case in cases` loop of `Expr::CaseOf` evaluation: each
case's pattern is tried in a fresh block-child environment; the first
match evaluates that case's body; exhaustion is `unreachable!`. -/
def caseLoop (I : Interp) : Nat → List CaseE → Value → Environment → SubstitutionContext →
    Except RtError Value
  | 0, _, _, _, _ => throw .outOfFuel
  | _+1, [], _, _, _ => throw .unreachableState
  | n+1, c :: cs, v, env, ctx => do
    let (m, caseEnv) ← matchPattern I n c.pattern_id v env.block_child ctx
    if m then do
      let r ← evalExpr I n c.body caseEnv ctx
      pure r.1
    else caseLoop I n cs v env ctx
  termination_by n _ _ _ _ => n

/-- The `for item in items` loop of `Expr::RecordInitialization` (and
of a matching `RecordUpdate` arm): evaluate each item and store it at
its field index. -/
def recordInitLoop (I : Interp) : Nat → List RecordInitItem → List Value → Environment →
    SubstitutionContext → Except RtError (List Value × Environment)
  | 0, _, _, _, _ => throw .outOfFuel
  | _+1, [], values, env, _ => pure (values, env)
  | n+1, item :: rest, values, env, ctx => do
    let (v, env) ← evalExpr I n item.expr_id env ctx
    if item.index < values.length then
      recordInitLoop I n rest (values.set item.index v) env ctx
    else throw .indexOutOfBounds
  termination_by n _ _ _ _ => n

/-- The `for update in updates` loop of `Expr::RecordUpdate`: the first
arm whose `record_id` matches the runtime record id is applied; no
match is `unreachable!`. -/
def recordUpdateLoop (I : Interp) : Nat → List RecordUpdateE → Nat → List Value → Environment →
    SubstitutionContext → Except RtError (List Value × Environment)
  | 0, _, _, _, _, _ => throw .outOfFuel
  | _+1, [], _, _, _, _ => throw .unreachableState
  | n+1, u :: us, id, values, env, ctx =>
    if u.record_id = id then recordInitLoop I n u.items values env ctx
    else recordUpdateLoop I n us id values env ctx
  termination_by n _ _ _ _ _ => n

end

end Siko

namespace Siko

/-- `throw` on `Except` in simp normal form. -/
theorem exc_throw_eq {α : Type} (e : RtError) : (throw e : Except RtError α) = .error e := rfl

/-- `pure` on `Except` in simp normal form. -/
theorem exc_pure_eq {α : Type} (a : α) : (pure a : Except RtError α) = .ok a := rfl

/-- `bind` on a successful `Except`. -/
theorem exc_bind_ok {α β : Type} (a : α) (f : α → Except RtError β) :
    (Except.ok a >>= f : Except RtError β) = f a := rfl

/-- `bind` on a failed `Except`. -/
theorem exc_bind_err {α β : Type} (e : RtError) (f : α → Except RtError β) :
    (Except.error e >>= f : Except RtError β) = .error e := rfl

/-- Inversion for a successful `Except` bind. -/
theorem exc_bind_eq_ok {α β : Type} {x : Except RtError α} {f : α → Except RtError β}
    {b : β} (h : (x >>= f) = .ok b) : ∃ a, x = .ok a ∧ f a = .ok b := by
  cases x with
  | ok a => exact ⟨a, rfl, h⟩
  | error e => exact absurd h (by simp [exc_bind_err])

end Siko

namespace Siko

/-- `Type` from `crates/siko_type_checker/src/types.rs` (file absent
from the snapshot); constructors and payloads reconstructed from their
uses in `type_store.rs` and `expr_processor.rs`.  Children of `Tuple`,
`Function` and `Named` are type variables (`TypeVariable`, embedded as
`Nat`). -/
inductive TcType where
  | Int
  | String
  | Bool
  | Float
  | TypeArgument (index : Nat) (constraints : List Nat)
  | FixedTypeArgument (index : Nat) (name : String) (constraints : List Nat)
  | Tuple (items : List Nat)
  | Function (dom cod : Nat)
  | Named (name : String) (id : Nat) (args : List Nat)
deriving DecidableEq, Repr

/-- `TypeStore` from `crates/siko_type_checker/src/type_store.rs`:
variables point at type indices, indices at types; `Counter`s allocate
fresh ids.  (`vars` stands for the source field `variables`, a
reserved word here.) -/
structure TypeStore where
  vars : List (Nat × Nat)
  indices : List (Nat × TcType)
  var_counter : Nat
  index_counter : Nat
  arg_counter : Nat
deriving DecidableEq, Repr

/-- `BTreeMap::insert`: overwrite the key's entry or add one. -/
def setAssoc {α : Type} (l : List (Nat × α)) (k : Nat) (v : α) : List (Nat × α) :=
  if (alookupBy (· == ·) l k).isSome then
    l.map (fun p => if p.1 = k then (k, v) else p)
  else l ++ [(k, v)]

/-- `TypeStore::get_index(var)` (panics on an invalid variable). -/
def TypeStore.get_index (ts : TypeStore) (var : Nat) : Option Nat :=
  alookupBy (· == ·) ts.vars var

/-- `TypeStore::get_type(var)` (panics on an invalid index). -/
def TypeStore.get_type (ts : TypeStore) (var : Nat) : Option TcType :=
  (ts.get_index var).bind (alookupBy (· == ·) ts.indices)

/-- `TypeStore::get_unique_type_arg()`. -/
def TypeStore.get_unique_type_arg (ts : TypeStore) : Nat × TypeStore :=
  (ts.arg_counter, { ts with arg_counter := ts.arg_counter + 1 })

/-- `TypeStore::add_type(ty)`: allocate a fresh variable and index and
bind them to the type. -/
def TypeStore.add_type (ts : TypeStore) (ty : TcType) : Nat × TypeStore :=
  let tv := ts.var_counter
  let idx := ts.index_counter
  (tv, { ts with
    var_counter := ts.var_counter + 1
    index_counter := ts.index_counter + 1
    indices := setAssoc ts.indices idx ty
    vars := setAssoc ts.vars tv idx })

/-- `TypeStore::merge(from, to)`: redirect every variable mapped to
`to`'s index onto `from`'s index. -/
def TypeStore.merge (ts : TypeStore) (frm to2 : Nat) : Option TypeStore := do
  let fromIndex ← ts.get_index frm
  let toIndex ← ts.get_index to2
  some { ts with
    vars := ts.vars.map (fun p => if p.2 = toIndex then (p.1, fromIndex) else p) }

/-- `TypeStore::has_class_instance(var, class_id)` from
`crates/siko_type_checker/src/type_store.rs`: the body is literally
`false` (a stub; its arguments are unused). -/
def TypeStore.has_class_instance (_ts : TypeStore) (_var : Nat) (_class_id : Nat) : Bool :=
  false

/-- Insertion into a sorted list (ascending). -/
def insertSortedNat (x : Nat) : List Nat → List Nat
  | [] => [x]
  | y :: ys => if x ≤ y then x :: y :: ys else y :: insertSortedNat x ys

/-- `Vec::sort` on class-id lists. -/
def sortNat : List Nat → List Nat
  | [] => []
  | x :: xs => insertSortedNat x (sortNat xs)

/-- `Vec::dedup`: collapse adjacent duplicates. -/
def dedupAdj : List Nat → List Nat
  | [] => []
  | [x] => [x]
  | x :: y :: rest => if x = y then dedupAdj (y :: rest) else x :: dedupAdj (y :: rest)

mutual
/-- `TypeStore::unify(primary, secondary)` from
`crates/siko_type_checker/src/type_store.rs`.  Returns the outcome and
the store after the call; `none` is a panicking lookup or fuel
exhaustion. -/
def unifyTS : Nat → TypeStore → Nat → Nat → Option (Bool × TypeStore)
  | 0, _, _, _ => none
  | fuel+1, ts, primary, secondary => do
    let primaryType ← ts.get_type primary
    let secondaryType ← ts.get_type secondary
    let index1 ← ts.get_index primary
    let index2 ← ts.get_index secondary
    if index1 = index2 then
      some (true, ts)
    else
      match primaryType, secondaryType with
      | .Int, .Int => some (true, ts)
      | .String, .String => some (true, ts)
      | .Bool, .Bool => some (true, ts)
      | .TypeArgument _ pcs, .TypeArgument _ scs =>
        let merged := dedupAdj (sortNat (pcs ++ scs))
        let r1 := ts.get_unique_type_arg
        let r2 := r1.2.add_type (.TypeArgument r1.1 merged)
        do
          let ts ← r2.2.merge r2.1 primary
          let ts ← ts.merge r2.1 secondary
          some (true, ts)
      | .TypeArgument _ pcs, .FixedTypeArgument _ _ scs =>
        if pcs.all (fun c => scs.contains c) then
          (ts.merge secondary primary).map (fun ts => (true, ts))
        else some (false, ts)
      | .FixedTypeArgument _ _ pcs, .TypeArgument _ scs =>
        if scs.all (fun c => pcs.contains c) then
          (ts.merge primary secondary).map (fun ts => (true, ts))
        else some (false, ts)
      | .TypeArgument _ cs, _ =>
        if cs.all (fun c => ts.has_class_instance secondary c) then
          (ts.merge secondary primary).map (fun ts => (true, ts))
        else some (false, ts)
      | _, .TypeArgument _ cs =>
        if cs.all (fun c => ts.has_class_instance primary c) then
          (ts.merge primary secondary).map (fun ts => (true, ts))
        else some (false, ts)
      | .Tuple vs1, .Tuple vs2 =>
        if vs1.length ≠ vs2.length then some (false, ts)
        else unifyListTS fuel ts vs1 vs2
      | .Function a1 b1, .Function a2 b2 => do
        let r ← unifyTS fuel ts a1 a2
        if r.1 then do
          let r2 ← unifyTS fuel r.2 b1 b2
          if r2.1 then some (true, r2.2) else some (false, r2.2)
        else some (false, r.2)
      | .Named _ id1 vs1, .Named _ id2 vs2 =>
        if id1 ≠ id2 then some (false, ts)
        else if vs1.length ≠ vs2.length then some (false, ts)
        else unifyListTS fuel ts vs1 vs2
      | _, _ => some (false, ts)
  termination_by n _ _ _ => n

/-- The pairwise child-unification loops of the `Tuple` and `Named`
cases of `TypeStore::unify`. -/
def unifyListTS : Nat → TypeStore → List Nat → List Nat → Option (Bool × TypeStore)
  | 0, _, _, _ => none
  | _+1, ts, [], _ => some (true, ts)
  | _+1, ts, _ :: _, [] => some (true, ts)
  | fuel+1, ts, v1 :: vs1, v2 :: vs2 => do
    let r ← unifyTS fuel ts v1 v2
    if r.1 then unifyListTS fuel r.2 vs1 vs2 else some (false, r.2)
  termination_by n _ _ _ => n
end

/-- Schematic `Type` from `siko_ir::types` as consumed by the instance
resolver (file absent from the snapshot).  Modelled from the spec (§3):
`Var(index, constraints)`, `FixedVar(index, name, constraints)`,
`Tuple(children)`, `Function(from, to)`, `Named(name, TypeDefId,
args)`. -/
inductive SType where
  | Var (index : Nat) (constraints : List Nat)
  | FixedVar (index : Nat) (name : String) (constraints : List Nat)
  | Tuple (items : List SType)
  | Function (a b : SType)
  | Named (name : String) (id : Nat) (args : List SType)

/-- `BaseType` from `siko_ir::types` (file absent).  Modelled from the
spec's glossary: "the outer constructor of a type (`Tuple`, `Function`,
`Named(id)`, `Var`)"; variable heads are the `Generic` base type. -/
inductive BaseType where
  | Tuple
  | Function
  | Named (id : Nat)
  | Generic
deriving DecidableEq, Repr

/-- `Type::get_base_type()`. -/
def SType.get_base_type : SType → BaseType
  | .Var _ _ => .Generic
  | .FixedVar _ _ _ => .Generic
  | .Tuple _ => .Tuple
  | .Function _ _ => .Function
  | .Named _ id _ => .Named id

/-- `AutoDerivedInstance` from
`crates/siko_type_checker/src/instance_resolver.rs`. -/
structure AutoDerivedInstance where
  ty : SType
  location : Nat

/-- `InstanceInfo` from
`crates/siko_type_checker/src/instance_resolver.rs`. -/
inductive InstanceInfo where
  | UserDefined (ty : SType) (instance_id : Nat) (location : Nat)
  | AutoDerived (index : Nat)

/-- `InstanceResolver` state (the fields `check_conflicts` reads). -/
structure InstanceResolverS where
  instance_map : List (Nat × List (BaseType × List InstanceInfo))
  auto_derived_instances : List AutoDerivedInstance

/-- `InstanceInfo::get_type(instance_resolver)`.  An out-of-range
auto-derived index cannot occur (indices are allocated by
`add_auto_derived`); the default is arbitrary. -/
def InstanceInfo.get_type (r : InstanceResolverS) : InstanceInfo → SType
  | .UserDefined ty _ _ => ty
  | .AutoDerived idx => ((r.auto_derived_instances.get? idx).getD ⟨SType.Tuple [], 0⟩).ty

/-- `InstanceInfo::get_location(instance_resolver)`. -/
def InstanceInfo.get_location (r : InstanceResolverS) : InstanceInfo → Nat
  | .UserDefined _ _ loc => loc
  | .AutoDerived idx => ((r.auto_derived_instances.get? idx).getD ⟨SType.Tuple [], 0⟩).location

/-- `TypecheckError` from `siko_type_checker::error` (the constructors
this development needs). -/
inductive TcErr where
  | ConflictingInstances (class_name : String) (l1 l2 : Nat)
  | InvalidFormatString (location : Nat)
deriving DecidableEq, Repr

/-- The `else` branch of `check_conflicts` for one base-type bucket:
the double loop over `instances.iter().enumerate()` reporting each
pair `first_index < second_index` whose instance types unify.
`uok` stands for `Unifier::unify(..).is_ok()` (the unifier's source
file is absent from the snapshot). -/
def conflictsNoGeneric (name : String) (uok : SType → SType → Bool) (r : InstanceResolverS)
    (insts : List InstanceInfo) : List TcErr :=
  insts.enum.flatMap (fun fi =>
    insts.enum.filterMap (fun si =>
      if fi.1 < si.1 ∧ uok (fi.2.get_type r) (si.2.get_type r) then
        some (.ConflictingInstances name (fi.2.get_location r) (si.2.get_location r))
      else none))

/-- The generic branch of `check_conflicts` for one bucket: every
instance whose location differs from the first generic instance's
location is reported against it (no unification is performed). -/
def conflictsGeneric (name : String) (r : InstanceResolverS) (gloc : Nat)
    (insts : List InstanceInfo) : List TcErr :=
  insts.filterMap (fun inst =>
    if inst.get_location r = gloc then none
    else some (.ConflictingInstances name gloc (inst.get_location r)))

/-- `check_conflicts` restricted to a single class (the body of the
outer `for` loop): if the class has a `Generic`-keyed bucket, its first
instance's location is paired against every other instance; otherwise
each bucket is scanned pairwise with the unifier.  (`check_conflicts`
buckets are non-empty by construction; an empty generic bucket, which
would panic in the source, is treated as absent.) -/
def checkConflictsClass (name : String) (uok : SType → SType → Bool) (r : InstanceResolverS)
    (class_instances : List (BaseType × List InstanceInfo)) : List TcErr :=
  let genericLoc :=
    match alookupBy (fun a b => decide (a = b)) class_instances BaseType.Generic with
    | some gis => gis.head?.map (fun g => g.get_location r)
    | none => none
  match genericLoc with
  | some gloc => class_instances.flatMap (fun b => conflictsGeneric name r gloc b.2)
  | none => class_instances.flatMap (fun b => conflictsNoGeneric name uok r b.2)

/-- `InstanceResolver::check_conflicts(errors, program)` from
`crates/siko_type_checker/src/instance_resolver.rs`: the errors pushed,
in emission order.  `className` stands for
`program.classes.get(class_id).name`. -/
def check_conflicts (className : Nat → String) (uok : SType → SType → Bool)
    (r : InstanceResolverS) : List TcErr :=
  r.instance_map.flatMap (fun c => checkConflictsClass (className c.1) uok r c.2)

/-- The `Expr::Formatter` case of `Unifier::visit_expr` in
`crates/siko_type_checker/src/expr_processor.rs`: split the format
string at `{}`; when the number of pieces is not `args.len() + 1` push
an `InvalidFormatString` error.  The type store is returned untouched:
the case generates no unification obligations. -/
def visitExprFormatter (ts : TypeStore) (location : Nat) (fmt : String) (args : List Nat) :
    TypeStore × List TcErr :=
  (ts,
    if (splitFmt fmt.data).length ≠ args.length + 1 then [.InvalidFormatString location]
    else [])

/-- `typedefs[T].variants[i].items.len()`: the declared arity of a
variant, when `T` is an ADT with an `i`-th variant. -/
def variantItemsLen (P : Program) (tid idx : Nat) : Option Nat :=
  match P.typedefs tid with
  | some (.Adt adt) => (adt.variants.get? idx).map (fun v => v.items.length)
  | _ => none

mutual
/-- The spec's variant-arity invariant (§3), read recursively through a
value: every `Variant(T, i, vs)` node satisfies
`vs.length = typedefs[T].variants[i].items.len()`. -/
def valueOk (P : Program) : Value → Bool
  | .mk core _ => coreOk P core
def coreOk (P : Program) : ValueCore → Bool
  | .Int _ => true
  | .Float _ => true
  | .Bool _ => true
  | .String _ => true
  | .Tuple vs => valuesOk P vs
  | .List vs => valuesOk P vs
  | .Record _ vs => valuesOk P vs
  | .Variant tid idx vs =>
    (match variantItemsLen P tid idx with
     | some k => vs.length == k
     | none => false) && valuesOk P vs
  | .Callable (.mk _ vs _) => valuesOk P vs
def valuesOk (P : Program) : List Value → Bool
  | [] => true
  | v :: vs => valueOk P v && valuesOk P vs
end

/-- All values reachable from an environment satisfy the variant-arity
invariant: the bindings of every frame and the positional argument
slice. -/
def envOk (P : Program) (e : Environment) : Prop :=
  (∀ f ∈ e.head :: e.tail, ∀ p ∈ f, valueOk P p.2 = true) ∧ ∀ v ∈ e.args, valueOk P v = true

/-- All registered extern functions preserve the variant-arity
invariant: on an invariant-satisfying environment they return
invariant-satisfying values. -/
def externsOk (I : Interp) : Prop :=
  ∀ m nm f env cur kind ty v, I.externs m nm = some f → envOk I.program env →
    f env cur kind ty = .ok v → valueOk I.program v = true

/-- The caller-visible effect `match_pattern` / `eval_expr` may have on
the environment passed to them: bindings can be prepended to the
innermost frame; nothing else changes. -/
def EnvExt (e e' : Environment) : Prop :=
  e'.func_id = e.func_id ∧ e'.tail = e.tail ∧ e'.args = e.args ∧
    e'.implicit_arg_count = e.implicit_arg_count ∧ ∃ pre, e'.head = pre ++ e.head

/-- `EnvExt` is reflexive. -/
theorem EnvExt.refl (e : Environment) : EnvExt e e :=
  ⟨rfl, rfl, rfl, rfl, [], rfl⟩

/-- `EnvExt` is transitive. -/
theorem EnvExt.trans {a b c : Environment} (h1 : EnvExt a b) (h2 : EnvExt b c) : EnvExt a c := by
  obtain ⟨f1, t1, a1, i1, p1, h1⟩ := h1
  obtain ⟨f2, t2, a2, i2, p2, h2⟩ := h2
  exact ⟨f2.trans f1, t2.trans t1, a2.trans a1, i2.trans i1, p2 ++ p1, by
    rw [h2, h1, List.append_assoc]⟩

/-- Adding a binding extends the environment. -/
theorem EnvExt.add (e : Environment) (pid : Nat) (v : Value) : EnvExt e (e.add pid v) :=
  ⟨rfl, rfl, rfl, rfl, [(pid, v)], rfl⟩

end Siko

namespace Siko

/-- Projection of `Value.mk`. -/
theorem Value.core_mk (c : ValueCore) (t : ConcreteType) : (Value.mk c t).core = c := rfl

/-- Projection of `Value.mk`. -/
theorem Value.ty_mk (c : ValueCore) (t : ConcreteType) : (Value.mk c t).ty = t := rfl

/-- Projection of `CallableV.mk`. -/
theorem CallableV.function_id_mk (f : Nat) (vs : List Value) (s : SubstitutionContext) :
    (CallableV.mk f vs s).function_id = f := rfl

/-- Projection of `CallableV.mk`. -/
theorem CallableV.values_mk (f : Nat) (vs : List Value) (s : SubstitutionContext) :
    (CallableV.mk f vs s).values = vs := rfl

/-- Projection of `CallableV.mk`. -/
theorem CallableV.sub_context_mk (f : Nat) (vs : List Value) (s : SubstitutionContext) :
    (CallableV.mk f vs s).sub_context = s := rfl

/-- A program with empty tables, the base of the concrete programs
below. -/
def emptyProgram : Program where
  exprs := fun _ => none
  patterns := fun _ => none
  functions := fun _ => none
  typedefs := fun _ => none
  types := fun _ => none
  expr_types := fun _ => none
  function_types := fun _ => none
  class_members := fun _ => none
  class_member_types := fun _ => none
  classes := fun _ => none
  class_names := fun _ => none
  instances := fun _ => none
  instance_map := fun _ => none
  string_id := 0

/-- An empty extern registry. -/
def noExterns : String → String → Option ExternFn := fun _ _ => none

/-- An empty environment owned by function 0. -/
def env0 : Environment := Environment.new 0 [] 0

/-- The store exercising `TypeStore::unify` on a constrained variable
against a concrete type: variable 0 is `TypeArgument(0, [7])` (a type
variable constrained by class 7), variable 1 is `Int`. -/
def storeC3 : TypeStore where
  vars := [(0, 0), (1, 1)]
  indices := [(0, .TypeArgument 0 [7]), (1, .Int)]
  var_counter := 2
  index_counter := 2
  arg_counter := 0

/-- C3: `TypeStore::unify` on a type variable carrying the non-empty
constraint set `[7]` against the concrete type `Int` returns `false`
and leaves the store untouched — the `has_class_instance` guard is a
stub that never consults the instance tables, so the unification can
never succeed for a non-empty constraint set, contrary to the claim
(and to the rule `InstanceResolver::check_instance` implements). -/
theorem C3_constrained_var_unify_fails :
    unifyTS 2 storeC3 0 1 = some (false, storeC3) := by
  simp [unifyTS, storeC3, TypeStore.get_type, TypeStore.get_index, alookupBy,
    TypeStore.has_class_instance]

/-- `{}`-splitting never produces an empty piece list. -/
theorem splitFmt_ne_nil (s : List Char) : splitFmt s ≠ [] := by
  rw [splitFmt.eq_def]
  match s with
  | [] => simp
  | c :: rest =>
    by_cases h : c = '{' ∧ rest.head? = some '}'
    · simp [h]
    · simp only [if_neg h]
      cases splitFmt rest <;> simp

/-- The number of pieces `{}`-splitting produces is one more than the
number of placeholders. -/
theorem splitFmt_length (s : List Char) :
    (splitFmt s).length = countPlaceholders s + 1 := by
  induction s using splitFmt.induct with
  | case1 => simp [splitFmt, countPlaceholders]
  | case2 c rest h ih =>
    rw [splitFmt.eq_def, countPlaceholders.eq_def]
    simp only [if_pos h]
    simpa using ih
  | case3 c rest h p ps hsplit ih =>
    rw [splitFmt.eq_def, countPlaceholders.eq_def]
    simp only [if_neg h]
    rw [hsplit] at ih ⊢
    simpa using ih
  | case4 c rest h hnil ih =>
    exact absurd hnil (splitFmt_ne_nil rest)
/-- C8: the expression typer's `Formatter` rule reports an
`InvalidFormatString` diagnostic exactly when the number of `{}`
placeholders in the format string differs from the number of argument
expressions, and it leaves the type store untouched (no constraints on
the arguments are generated). -/
theorem C8_formatter_diagnostic_iff (ts : TypeStore) (loc : Nat) (fmt : String)
    (args : List Nat) :
    ((visitExprFormatter ts loc fmt args).2 = [.InvalidFormatString loc] ↔
      countPlaceholders fmt.data ≠ args.length) ∧
    (visitExprFormatter ts loc fmt args).1 = ts := by
  refine ⟨?_, rfl⟩
  rw [visitExprFormatter]
  by_cases h : countPlaceholders fmt.data = args.length
  · simp [splitFmt_length, h]
  · simp only [splitFmt_length]
    simp [h]

end Siko

namespace Siko

/-- `map` on a failed `Except`. -/
theorem exc_map_err {α β : Type} (e : RtError) (f : α → β) :
    (Except.error e : Except RtError α).map f = .error e := rfl

/-- `map` on a successful `Except`. -/
theorem exc_map_ok {α β : Type} (a : α) (f : α → β) :
    (Except.ok a : Except RtError α).map f = .ok (f a) := rfl

/-- The running `result` of the `Do` loop: the last element of the
produced values, or the initial accumulator when there are none. -/
def lastValue (acc : Value) : List Value → Value
  | [] => acc
  | v :: vs => lastValue v vs

/-- The `Do` body loop computes the last of the values produced by
left-to-right list evaluation (the accumulator is returned for an empty
list). -/
theorem evalDo_eq_getLast (I : Interp) (n : Nat) (es : List Nat) (acc : Value)
    (env : Environment) (ctx : SubstitutionContext) :
    evalDo I n es acc env ctx =
      (evalList I n es env ctx).map (fun r => (lastValue acc r.1, r.2)) := by
  induction n generalizing es acc env with
  | zero => simp [evalDo, evalList, exc_map_err, exc_throw_eq]
  | succ n ih =>
    cases es with
    | nil => simp [evalDo, evalList, exc_map_ok, exc_pure_eq, lastValue]
    | cons e rest =>
      rw [evalDo, evalList]
      cases h : evalExpr I n e env ctx with
      | error er => simp [h, exc_bind_err, exc_map_err]
      | ok pr =>
        simp only [h, exc_bind_ok]
        rw [ih]
        cases hl : evalList I n rest pr.2 ctx with
        | error er => simp [exc_bind_err, exc_map_err]
        | ok q => simp [exc_bind_ok, exc_map_ok, exc_pure_eq, lastValue]

/-- The program whose expression 0 is an empty `Do` block (typed as the
unit tuple). -/
def P5cex : Program :=
  { emptyProgram with
    exprs := fun eid => if eid = 0 then some (.Do []) else none
    expr_types := fun eid => if eid = 0 then some 0 else none
    types := fun tid => if tid = 0 then some (.Tuple []) else none }

/-- The interpreter over `P5cex`. -/
def I5cex : Interp := ⟨P5cex, noExterns⟩

/-- C5 counterexample: evaluating an empty `Do` hits the
`assert!(!exprs.is_empty())` in `eval_expr` and aborts; it does not
yield `Tuple[]` as the claim states. -/
theorem C5_empty_do_aborts :
    evalExpr I5cex 2 0 env0 [] = .error .assertionFailed := by
  simp [evalExpr, I5cex, P5cex, emptyProgram, to_concrete_type, toConcreteList,
    exc_throw_eq]

/-- C5 (amended): evaluating a non-empty `Do` evaluates its children
left to right in a block-child environment and returns the last child's
value, with the caller's environment unchanged; an empty `Do` aborts
with an assertion failure (it does not yield `Tuple[]`). -/
theorem C5_do_amended (I : Interp) (n eid : Nat) (env : Environment)
    (ctx : SubstitutionContext) (es : List Nat) (tyId : Nat) (ty : ConcreteType)
    (h1 : I.program.exprs eid = some (.Do es))
    (h2 : I.program.expr_types eid = some tyId)
    (h3 : to_concrete_type I.program (n+1) tyId ctx = some ty)
    (hne : es ≠ []) :
    evalExpr I (n+1) eid env ctx =
      (evalList I n es env.block_child ctx).map
        (fun r => (lastValue (Value.mk (.Tuple []) ty) r.1, env)) := by
  rw [evalExpr]
  simp only [h1, h2, h3]
  rw [if_neg (by simpa [List.isEmpty_iff] using hne)]
  rw [evalDo_eq_getLast]
  cases hl : evalList I n es env.block_child ctx with
  | error er => simp [exc_map_err, exc_bind_err]
  | ok q => simp [exc_map_ok, exc_bind_ok, exc_pure_eq]

/-- The program whose expression 0 is `Do [1]` with expression 1 an
integer literal. -/
def P5w : Program :=
  { emptyProgram with
    exprs := fun eid => if eid = 0 then some (.Do [1])
      else if eid = 1 then some (.IntegerLiteral 3) else none
    expr_types := fun eid => if eid = 0 then some 0 else if eid = 1 then some 1 else none
    types := fun tid => if tid = 0 then some (.Named "Int" 9 [])
      else if tid = 1 then some (.Named "Int" 9 []) else none }

/-- The interpreter over `P5w`. -/
def I5w : Interp := ⟨P5w, noExterns⟩

/-- Witness for the amended C5 theorem at a concrete non-empty `Do`. -/
theorem C5_do_amended_witness :
    (I5w.program.exprs 0 = some (.Do [1]) ∧ I5w.program.expr_types 0 = some 0 ∧
      to_concrete_type I5w.program 3 0 [] = some (.Named "Int" 9 []) ∧ [1] ≠ ([] : List Nat)) ∧
    evalExpr I5w 3 0 env0 [] =
      (evalList I5w 2 [1] env0.block_child []).map
        (fun r => (lastValue (Value.mk (.Tuple []) (.Named "Int" 9 [])) r.1, env0)) :=
  ⟨⟨rfl, rfl, by simp [I5w, P5w, emptyProgram, to_concrete_type, toConcreteList], by simp⟩,
    C5_do_amended I5w 2 0 env0 [] [1] 0 (.Named "Int" 9 []) rfl rfl
      (by simp [I5w, P5w, emptyProgram, to_concrete_type, toConcreteList]) (by simp)⟩

end Siko

namespace Siko

/-- C6 (amended): when the collected argument count (after appending
the new arguments) is below `explicit arity + implicit arg count`,
`call` returns a new `Callable` carrying the updated argument list, and
the concrete type attached to the returned value is the callee value's
function type unchanged — the already-supplied prefix is not removed
(shortening via `get_func_type` happens only when the function is
finally executed). -/
theorem C6_partial_application_keeps_type (I : Interp) (n : Nat) (c : CallableV)
    (ty : ConcreteType) (args : List Value) (eid : Option Nat) (f : FunctionD)
    (hf : I.program.functions c.function_id = some f)
    (hlt : (c.values ++ args).length < f.arg_count + f.implicit_arg_count) :
    call I (n+2) (Value.mk (.Callable c) ty) args eid =
      .ok (Value.mk (.Callable (CallableV.mk c.function_id (c.values ++ args) c.sub_context))
        ty) := by
  rw [call]
  simp only [Value.core_mk, Value.ty_mk]
  rw [callLoop]
  simp only [hf, CallableV.function_id_mk, CallableV.values_mk, CallableV.sub_context_mk]
  rw [if_pos (by simpa using hlt)]
  simp [exc_pure_eq]

/-- A two-argument function table: function 0 has explicit arity 2 and
no implicit arguments. -/
def P6 : Program :=
  { emptyProgram with
    functions := fun fid => if fid = 0 then some ⟨2, 0, .Lambda ⟨99⟩⟩ else none }

/-- The interpreter over `P6`. -/
def I6 : Interp := ⟨P6, noExterns⟩

/-- Concrete types for the arity-2 function `A -> B -> R`. -/
def tyA : ConcreteType := .Named "A" 0 []

/-- See `tyA`. -/
def tyB : ConcreteType := .Named "B" 1 []

/-- See `tyA`. -/
def tyR : ConcreteType := .Named "R" 2 []

/-- The full concrete function type `A -> B -> R`. -/
def tyF : ConcreteType := .Function tyA (.Function tyB tyR)

/-- A first argument value. -/
def argA : Value := Value.mk (.Int 1) tyA

/-- A second argument value. -/
def argB : Value := Value.mk (.Int 2) tyB

/-- C6 counterexample: partially applying the arity-2 function 0 (of
concrete type `A -> B -> R`) to one argument returns a `Callable` whose
attached concrete type is still the full `A -> B -> R`, not the
claim's shortened `B -> R`. -/
theorem C6_partial_type_not_shortened :
    call I6 2 (Value.mk (.Callable (.mk 0 [] [])) tyF) [argA] none =
      .ok (Value.mk (.Callable (.mk 0 [argA] [])) tyF) ∧
    tyF ≠ .Function tyB tyR := by
  constructor
  · rw [call]
    simp only [Value.core_mk, Value.ty_mk]
    rw [callLoop]
    simp [I6, P6, emptyProgram, CallableV.function_id_mk, CallableV.values_mk,
      CallableV.sub_context_mk, exc_pure_eq]
  · simp [tyF, tyA, tyB, tyR]

/-- Witness for the amended C6 theorem at a concrete partial
application. -/
theorem C6_partial_application_keeps_type_witness :
    (I6.program.functions (CallableV.mk 0 [] []).function_id = some ⟨2, 0, .Lambda ⟨99⟩⟩ ∧
      ((CallableV.mk 0 [] []).values ++ [argA]).length < 2 + 0) ∧
    call I6 3 (Value.mk (.Callable (.mk 0 [] [])) tyF) [argA] none =
      .ok (Value.mk
        (.Callable (CallableV.mk (CallableV.mk 0 [] []).function_id
          ((CallableV.mk 0 [] []).values ++ [argA]) (CallableV.mk 0 [] []).sub_context)) tyF) :=
  ⟨⟨rfl, by simp [CallableV.values_mk]⟩,
    C6_partial_application_keeps_type I6 1 (.mk 0 [] []) tyF [argA] none ⟨2, 0, .Lambda ⟨99⟩⟩
      rfl (by simp [CallableV.values_mk])⟩

/-- C2: the partial-application law.  Calling an arity-`needed`
function `f` (as a fresh callable) with a proper prefix of the
arguments yields a callable `g`; calling `g` with the remaining
arguments computes exactly what calling `f` with all arguments at once
computes, at every fuel. -/
theorem C2_partial_application_law (I : Interp) (m : Nat) (fid : Nat)
    (ctxv : SubstitutionContext) (ty : ConcreteType) (as1 as2 : List Value)
    (eid : Option Nat) (f : FunctionD)
    (hf : I.program.functions fid = some f)
    (hk : as1.length < f.arg_count + f.implicit_arg_count)
    (hn : (as1 ++ as2).length = f.arg_count + f.implicit_arg_count) :
    ∃ g, call I (m+2) (Value.mk (.Callable (.mk fid [] ctxv)) ty) as1 eid = .ok g ∧
      ∀ m2, call I m2 g as2 eid =
        call I m2 (Value.mk (.Callable (.mk fid [] ctxv)) ty) (as1 ++ as2) eid := by
  refine ⟨Value.mk (.Callable (.mk fid as1 ctxv)) ty, ?_, ?_⟩
  · rw [call]
    simp only [Value.core_mk, Value.ty_mk]
    rw [callLoop]
    simp only [CallableV.function_id_mk, CallableV.values_mk, CallableV.sub_context_mk, hf,
      List.nil_append]
    rw [if_pos hk]
    simp [exc_pure_eq]
  · intro m2
    cases m2 with
    | zero => rw [call, call]
    | succ m3 =>
      rw [call, call]
      simp [Value.core_mk, Value.ty_mk, CallableV.function_id_mk, CallableV.values_mk,
        CallableV.sub_context_mk]

/-- Witness for the partial-application law: the arity-2 function 0 of
`P6` applied to one and then one more argument. -/
theorem C2_partial_application_law_witness :
    (I6.program.functions 0 = some ⟨2, 0, .Lambda ⟨99⟩⟩ ∧ [argA].length < 2 + 0 ∧
      ([argA] ++ [argB]).length = 2 + 0) ∧
    ∃ g, call I6 3 (Value.mk (.Callable (.mk 0 [] [])) tyF) [argA] none = .ok g ∧
      ∀ m2, call I6 m2 g [argB] none =
        call I6 m2 (Value.mk (.Callable (.mk 0 [] [])) tyF) ([argA] ++ [argB]) none :=
  ⟨⟨rfl, by simp, by simp⟩,
    C2_partial_application_law I6 1 0 [] tyF [argA] [argB] none ⟨2, 0, .Lambda ⟨99⟩⟩
      rfl (by simp) (by simp)⟩

end Siko

namespace Siko

/-- C4 (amended): class-member dispatch.  With the member, its type,
the substitution context, selector and concrete function type computed:
if the class's instance map has an entry for the selector, the
evaluator calls the instance's implementation of the member's name,
falling back to the member's default implementation when the instance
does not implement it, and aborting when neither exists; if the
instance map has no entry for the selector, evaluation aborts with a
hard error — the default implementation is not consulted. -/
theorem C4_class_member_dispatch (I : Interp) (n mid : Nat) (argVals : List Value)
    (eid : Option Nat) (exprTy : ConcreteType) (member : ClassMemberD) (mty : Nat × Nat)
    (fats : List Nat) (rt : Nat) (cctx : SubstitutionContext) (selector cft : ConcreteType)
    (instances : List (ConcreteType × Nat))
    (h1 : I.program.class_members mid = some member)
    (h2 : I.program.class_member_types mid = some mty)
    (h3 : get_func_arg_types I.program (n+1) mty.1 argVals.length = some (fats, rt))
    (h4 : get_subtitution_context I.program (n+1) fats argVals exprTy rt = some cctx)
    (h5 : to_concrete_type I.program (n+1) mty.2 cctx = some selector)
    (h6 : to_concrete_type I.program (n+1) mty.1 cctx = some cft)
    (h7 : I.program.instance_map member.class_id = some instances) :
    (∀ instId inst im, alookupBy ConcreteType.beqC instances selector = some instId →
      I.program.instances instId = some inst →
      alookupBy (· == ·) inst.members member.name = some im →
      callClassMember I (n+1) mid argVals eid exprTy =
        call I n (Value.mk (.Callable (.mk im.function_id [] cctx)) cft) argVals eid) ∧
    (∀ instId inst d, alookupBy ConcreteType.beqC instances selector = some instId →
      I.program.instances instId = some inst →
      alookupBy (· == ·) inst.members member.name = none →
      member.default_implementation = some d →
      callClassMember I (n+1) mid argVals eid exprTy =
        call I n (Value.mk (.Callable (.mk d [] cctx)) cft) argVals eid) ∧
    (∀ instId inst, alookupBy ConcreteType.beqC instances selector = some instId →
      I.program.instances instId = some inst →
      alookupBy (· == ·) inst.members member.name = none →
      member.default_implementation = none →
      callClassMember I (n+1) mid argVals eid exprTy = .error .notFound) ∧
    (alookupBy ConcreteType.beqC instances selector = none →
      callClassMember I (n+1) mid argVals eid exprTy = .error .missingInstance) := by
  rw [callClassMember]
  simp only [h1, h2, h3, h4, h5, h6, h7]
  refine ⟨?_, ?_, ?_, ?_⟩
  · intro instId inst im hsel hinst him
    simp [hsel, him, hinst]
  · intro instId inst d hsel hinst him hd
    simp [hsel, him, hinst, hd]
  · intro instId inst hsel hinst him hd
    simp [hsel, him, hinst, hd, exc_throw_eq]
  · intro hsel
    simp [hsel, exc_throw_eq]

/-- The built-in `Int` concrete type of the dispatch examples. -/
def tyInt : ConcreteType := .Named "Int" 7 []

/-- The built-in `String` concrete type of the dispatch examples. -/
def tyStr : ConcreteType := .Named "String" 5 []

/-- An integer argument value. -/
def vInt : Value := Value.mk (.Int 1) tyInt

/-- A program with one class member (`show`-like, member 0 of class 0,
with a default implementation, of schematic type `a -> String`) whose
class has an instance table with no entry at all. -/
def P4cex : Program :=
  { emptyProgram with
    class_members := fun mid => if mid = 0 then some ⟨0, "show", some 9⟩ else none
    class_member_types := fun mid => if mid = 0 then some (0, 1) else none
    types := fun tid =>
      if tid = 0 then some (.Function 1 2)
      else if tid = 1 then some (.TypeArgument 0 [])
      else if tid = 2 then some (.Named "String" 5 []) else none
    instance_map := fun cid => if cid = 0 then some [] else none }

/-- The interpreter over `P4cex`. -/
def I4cex : Interp := ⟨P4cex, noExterns⟩

/-- C4 counterexample: the instance selector (`Int`) has no entry in
the class's instance map, and the member has a default implementation
(function 9); the claim says the default is used, but the evaluator
panics ("Did not find ...") without consulting it. -/
theorem C4_missing_instance_ignores_default :
    callClassMember I4cex 3 0 [vInt] none tyStr = .error .missingInstance ∧
    (I4cex.program.class_members 0).map (fun m => m.default_implementation) =
      some (some 9) := by
  refine ⟨?_, rfl⟩
  rw [callClassMember]
  simp [I4cex, P4cex, emptyProgram, get_func_arg_types, collect_arg_types,
    get_subtitution_context, matchArgsCtx, match_generic_types, matchGenericList,
    to_concrete_type, toConcreteList, SubstitutionContext.find, alookupBy, Value.ty_mk,
    vInt, tyInt, tyStr, exc_throw_eq, exc_bind_ok]

/-- Like `P4cex` but with an `Int` instance (instance 0) implementing
the member by function 4. -/
def P4w : Program :=
  { P4cex with
    instance_map := fun cid => if cid = 0 then some [(tyInt, 0)] else none
    instances := fun iid => if iid = 0 then some ⟨[("show", ⟨4⟩)]⟩ else none }

/-- The interpreter over `P4w`. -/
def I4w : Interp := ⟨P4w, noExterns⟩

/-- Witness for the amended C4 theorem: dispatch at selector `Int`
picks the instance's implementation (function 4). -/
theorem C4_class_member_dispatch_witness :
    (I4w.program.class_members 0 = some ⟨0, "show", some 9⟩ ∧
      I4w.program.instance_map 0 = some [(tyInt, 0)] ∧
      I4w.program.instances 0 = some ⟨[("show", ⟨4⟩)]⟩) ∧
    callClassMember I4w 3 0 [vInt] none tyStr =
      call I4w 2 (Value.mk (.Callable (.mk 4 [] [(0, tyInt)])) (.Function tyInt tyStr))
        [vInt] none :=
  ⟨⟨rfl, rfl, rfl⟩,
    (C4_class_member_dispatch I4w 2 0 [vInt] none tyStr ⟨0, "show", some 9⟩ (0, 1) [1] 2
      [(0, tyInt)] tyInt (.Function tyInt tyStr) [(tyInt, 0)] rfl rfl
      (by simp [I4w, P4w, P4cex, emptyProgram, get_func_arg_types, collect_arg_types])
      (by simp [I4w, P4w, P4cex, emptyProgram, get_subtitution_context, matchArgsCtx,
        match_generic_types, matchGenericList, SubstitutionContext.find, alookupBy,
        Value.ty_mk, vInt, tyInt, tyStr])
      (by simp [I4w, P4w, P4cex, emptyProgram, to_concrete_type, SubstitutionContext.find,
        alookupBy, tyInt])
      (by simp [I4w, P4w, P4cex, emptyProgram, to_concrete_type, toConcreteList,
        SubstitutionContext.find, alookupBy, tyInt, tyStr])
      rfl).1 0 ⟨[("show", ⟨4⟩)]⟩ ⟨4⟩
      (by simp [alookupBy, ConcreteType.beqC, ConcreteType.beqList, tyInt]) rfl
      (by simp [alookupBy])⟩

end Siko

namespace Siko

/-- A head-unification test for the conflict examples, modelled from
the spec (§4.1) on the head shapes exercised: a free variable unifies
with anything; ground nullary named types unify exactly when their
type-definition ids agree. -/
def uok7 : SType → SType → Bool
  | .Var _ _, _ => true
  | _, .Var _ _ => true
  | .Named _ i [], .Named _ j [] => i == j
  | _, _ => false

/-- The class-name table of the conflict examples. -/
def cname7 : Nat → String := fun _ => "C"

/-- A resolver for class 0 with a generic-headed instance (location 0)
and two identical `Int`-headed instances (locations 1 and 2). -/
def r7cex : InstanceResolverS where
  instance_map :=
    [(0, [(BaseType.Generic, [.UserDefined (.Var 0 []) 0 0]),
          (BaseType.Named 7, [.UserDefined (.Named "Int" 7 []) 1 1,
                              .UserDefined (.Named "Int" 7 []) 2 2])])]
  auto_derived_instances := []

/-- C7 counterexample: with a generic instance present,
`check_conflicts` reports only the two pairs against the generic
instance; the pair of identical `Int` instances (locations 1 and 2),
whose heads unify, is not reported — contradicting "every pair of
distinct instances whose head types unify". -/
theorem C7_generic_masks_concrete_pairs :
    check_conflicts cname7 uok7 r7cex =
      [.ConflictingInstances "C" 0 1, .ConflictingInstances "C" 0 2] ∧
    uok7 (.Named "Int" 7 []) (.Named "Int" 7 []) = true ∧
    TcErr.ConflictingInstances "C" 1 2 ∉ check_conflicts cname7 uok7 r7cex := by
  refine ⟨rfl, rfl, ?_⟩
  intro h
  simp [check_conflicts, checkConflictsClass, conflictsGeneric, cname7, r7cex, alookupBy,
    InstanceInfo.get_location] at h

/-- C7 (amended): for a class with no generic-headed instance bucket,
`check_conflicts` reports a `ConflictingInstances` error for every pair
of distinct instances in the same base-type bucket whose heads unify;
for a class with a generic-headed bucket it instead reports one error
pairing the first generic instance against every instance at a
different location, and every error it reports for that class names the
first generic instance's location (pairs not involving it are never
checked). -/
theorem C7_check_conflicts_amended (className : Nat → String) (uok : SType → SType → Bool)
    (r : InstanceResolverS) :
    (∀ cid ci, (cid, ci) ∈ r.instance_map →
      alookupBy (fun a b => decide (a = b)) ci BaseType.Generic = none →
      ∀ b ∈ ci, ∀ (i j : Nat) (fi si : InstanceInfo), i < j → b.2[i]? = some fi → b.2[j]? = some si →
        uok (fi.get_type r) (si.get_type r) = true →
        TcErr.ConflictingInstances (className cid) (fi.get_location r) (si.get_location r) ∈
          check_conflicts className uok r) ∧
    (∀ cid ci gis g, (cid, ci) ∈ r.instance_map →
      alookupBy (fun a b => decide (a = b)) ci BaseType.Generic = some gis →
      gis.head? = some g →
      (∀ b ∈ ci, ∀ inst ∈ b.2, inst.get_location r ≠ g.get_location r →
        TcErr.ConflictingInstances (className cid) (g.get_location r) (inst.get_location r) ∈
          check_conflicts className uok r) ∧
      (∀ e ∈ checkConflictsClass (className cid) uok r ci,
        ∃ l2, e = .ConflictingInstances (className cid) (g.get_location r) l2)) := by
  constructor
  · intro cid ci hci hng b hb i j fi si hij hfi hsi huok
    rw [check_conflicts, List.mem_flatMap]
    refine ⟨(cid, ci), hci, ?_⟩
    rw [checkConflictsClass]
    simp only [hng]
    rw [List.mem_flatMap]
    refine ⟨b, hb, ?_⟩
    rw [conflictsNoGeneric, List.mem_flatMap]
    refine ⟨(i, fi), ?_, ?_⟩
    · rw [List.mk_mem_enum_iff_getElem?]
      exact hfi
    · rw [List.mem_filterMap]
      refine ⟨(j, si), ?_, ?_⟩
      · rw [List.mk_mem_enum_iff_getElem?]
        exact hsi
      · simp [hij, huok]
  · intro cid ci gis g hci hg hhead
    constructor
    · intro b hb inst hinst hne
      rw [check_conflicts, List.mem_flatMap]
      refine ⟨(cid, ci), hci, ?_⟩
      rw [checkConflictsClass]
      simp only [hg, hhead, Option.map_some']
      rw [List.mem_flatMap]
      refine ⟨b, hb, ?_⟩
      rw [conflictsGeneric, List.mem_filterMap]
      exact ⟨inst, hinst, by simp [hne]⟩
    · intro e he
      rw [checkConflictsClass] at he
      simp only [hg, hhead, Option.map_some'] at he
      rw [List.mem_flatMap] at he
      obtain ⟨b, _, hb⟩ := he
      rw [conflictsGeneric, List.mem_filterMap] at hb
      obtain ⟨inst, _, hinst⟩ := hb
      by_cases hloc : inst.get_location r = g.get_location r
      · simp [hloc] at hinst
      · simp only [if_neg hloc, Option.some.injEq] at hinst
        exact ⟨inst.get_location r, hinst.symm⟩

/-- A resolver for class 0 with two identical `Int`-headed instances
(locations 1 and 2) and no generic instance. -/
def r7w : InstanceResolverS where
  instance_map :=
    [(0, [(BaseType.Named 7, [.UserDefined (.Named "Int" 7 []) 1 1,
                              .UserDefined (.Named "Int" 7 []) 2 2])])]
  auto_derived_instances := []

/-- Witness for the amended C7 theorem: with no generic instance the
duplicate pair is reported. -/
theorem C7_check_conflicts_amended_witness :
    ((0, [(BaseType.Named 7, [InstanceInfo.UserDefined (.Named "Int" 7 []) 1 1,
        InstanceInfo.UserDefined (.Named "Int" 7 []) 2 2])]) ∈ r7w.instance_map ∧
      uok7 ((InstanceInfo.UserDefined (SType.Named "Int" 7 []) 1 1).get_type r7w)
        ((InstanceInfo.UserDefined (SType.Named "Int" 7 []) 2 2).get_type r7w) = true) ∧
    TcErr.ConflictingInstances "C" 1 2 ∈ check_conflicts cname7 uok7 r7w := by
  refine ⟨⟨by simp [r7w], rfl⟩, ?_⟩
  have h := (C7_check_conflicts_amended cname7 uok7 r7w).1 0
    [(BaseType.Named 7, [.UserDefined (.Named "Int" 7 []) 1 1,
      .UserDefined (.Named "Int" 7 []) 2 2])]
    (by simp [r7w]) (by simp [alookupBy])
    (BaseType.Named 7, [.UserDefined (.Named "Int" 7 []) 1 1,
      .UserDefined (.Named "Int" 7 []) 2 2])
    (by simp) 0 1
    (.UserDefined (.Named "Int" 7 []) 1 1) (.UserDefined (.Named "Int" 7 []) 2 2)
    (by omega) rfl rfl rfl
  simpa [cname7, InstanceInfo.get_location] using h

end Siko

namespace Siko

/-- `throw` never equals `ok`. -/
theorem exc_throw_ne_ok {β : Type} {e : RtError} {b : β}
    (h : (throw e : Except RtError β) = .ok b) : False := by
  simp [exc_throw_eq] at h

/-- Lifting `EnvExt` through a final `pure` of a pair. -/
theorem EnvExt.of_pure {β : Type} {x : β} {env env' : Environment} {r : β × Environment}
    (hext : EnvExt env env')
    (h : (pure (x, env') : Except RtError (β × Environment)) = .ok r) : EnvExt env r.2 := by
  have hr : r = (x, env') := by simpa [exc_pure_eq] using h.symm
  rw [hr]
  exact hext

/-- Fuel-indexed environment extension for every evaluator entry point
that threads the caller's environment: a successful call returns an
environment that extends the one passed in (bindings prepended to the
innermost frame; outer frames, arguments and implicit count
untouched). -/
theorem envExt_eval (I : Interp) : ∀ n,
    (∀ eid env ctx r, evalExpr I n eid env ctx = .ok r → EnvExt env r.2) ∧
    (∀ es env ctx r, evalList I n es env ctx = .ok r → EnvExt env r.2) ∧
    (∀ es acc env ctx r, evalDo I n es acc env ctx = .ok r → EnvExt env r.2) ∧
    (∀ pid v env ctx r, matchPattern I n pid v env ctx = .ok r → EnvExt env r.2) ∧
    (∀ pids vs env ctx r, matchList I n pids vs env ctx = .ok r → EnvExt env r.2) ∧
    (∀ items vals env ctx r, recordInitLoop I n items vals env ctx = .ok r → EnvExt env r.2) ∧
    (∀ us id vals env ctx r, recordUpdateLoop I n us id vals env ctx = .ok r →
      EnvExt env r.2) := by
  intro n
  induction n with
  | zero =>
    refine ⟨fun eid env ctx r h => ?_, fun es env ctx r h => ?_,
      fun es acc env ctx r h => ?_, fun pid v env ctx r h => ?_,
      fun pids vs env ctx r h => ?_, fun items vals env ctx r h => ?_,
      fun us id vals env ctx r h => ?_⟩
    · rw [evalExpr] at h; exact absurd h (by simp [exc_throw_eq])
    · rw [evalList] at h; exact absurd h (by simp [exc_throw_eq])
    · rw [evalDo] at h; exact absurd h (by simp [exc_throw_eq])
    · rw [matchPattern] at h; exact absurd h (by simp [exc_throw_eq])
    · rw [matchList] at h; exact absurd h (by simp [exc_throw_eq])
    · rw [recordInitLoop] at h; exact absurd h (by simp [exc_throw_eq])
    · rw [recordUpdateLoop] at h; exact absurd h (by simp [exc_throw_eq])
  | succ n ih =>
    obtain ⟨ihE, ihL, ihD, ihM, ihML, ihRI, ihRU⟩ := ih
    refine ⟨?_, ?_, ?_, ?_, ?_, ?_, ?_⟩
    · -- evalExpr
      intro eid env ctx r h
      rw [evalExpr] at h
      split at h
      · split at h
        · split at h
          · split at h
            · -- IntegerLiteral
              exact (EnvExt.refl env).of_pure h
            · -- StringLiteral
              exact (EnvExt.refl env).of_pure h
            · -- FloatLiteral
              exact (EnvExt.refl env).of_pure h
            · -- BoolLiteral
              exact (EnvExt.refl env).of_pure h
            · -- ArgRef
              split at h
              · exact (EnvExt.refl env).of_pure h
              · exact absurd h (by simp [exc_throw_eq])
            · -- StaticFunctionCall
              rename_i fid argIds heq
              split at h
              · split at h
                · obtain ⟨a, ha, h⟩ := exc_bind_eq_ok h
                  split at h
                  rename_i argVals env1 
                  split at h
                  · split at h
                    · obtain ⟨rv, hrv, h⟩ := exc_bind_eq_ok h
                      exact (ihL argIds env ctx (argVals, env1) ha).of_pure h
                    · exact absurd h (by simp [exc_throw_eq])
                  · exact absurd h (by simp [exc_throw_eq])
                · exact absurd h (by simp [exc_throw_eq])
              · exact absurd h (by simp [exc_throw_eq])
            · -- DynamicFunctionCall
              rename_i fe argIds heq
              obtain ⟨a, ha, h⟩ := exc_bind_eq_ok h
              split at h
              rename_i fv env1
              obtain ⟨b, hb, h⟩ := exc_bind_eq_ok h
              split at h
              rename_i argVals env2
              obtain ⟨rv, hrv, h⟩ := exc_bind_eq_ok h
              exact ((ihE fe env ctx (fv, env1) ha).trans
                (ihL argIds env1 ctx (argVals, env2) hb)).of_pure h
            · -- Do
              split at h
              · exact absurd h (by simp [exc_throw_eq])
              · obtain ⟨a, ha, h⟩ := exc_bind_eq_ok h
                exact (EnvExt.refl env).of_pure h
            · -- Bind
              rename_i pid rhs heq
              obtain ⟨a, ha, h⟩ := exc_bind_eq_ok h
              split at h
              rename_i v env1
              obtain ⟨b, hb, h⟩ := exc_bind_eq_ok h
              split at h
              rename_i m env2
              split at h
              · exact ((ihE rhs env ctx (v, env1) ha).trans
                  (ihM pid v env1 ctx (m, env2) hb)).of_pure h
              · exact absurd h (by simp [exc_throw_eq])
            · -- ExprValue
              split at h
              · exact (EnvExt.refl env).of_pure h
              · exact absurd h (by simp [exc_throw_eq])
            · -- If
              rename_i cond tb eb heq
              obtain ⟨a, ha, h⟩ := exc_bind_eq_ok h
              split at h
              rename_i cv env1
              have hc := ihE cond env ctx (cv, env1) ha
              split at h
              · exact hc.trans (ihE tb env1 ctx r h)
              · exact hc.trans (ihE eb env1 ctx r h)
              · exact absurd h (by simp [exc_throw_eq])
            · -- Tuple
              rename_i ids heq
              obtain ⟨a, ha, h⟩ := exc_bind_eq_ok h
              split at h
              rename_i vs env1
              exact (ihL ids env ctx (vs, env1) ha).of_pure h
            · -- List
              rename_i ids heq
              obtain ⟨a, ha, h⟩ := exc_bind_eq_ok h
              split at h
              rename_i vs env1
              exact (ihL ids env ctx (vs, env1) ha).of_pure h
            · -- TupleFieldAccess
              rename_i idx te heq
              obtain ⟨a, ha, h⟩ := exc_bind_eq_ok h
              split at h
              rename_i tv env1
              have hc := ihE te env ctx (tv, env1) ha
              split at h
              · split at h
                · exact hc.of_pure h
                · exact absurd h (by simp [exc_throw_eq])
              · exact absurd h (by simp [exc_throw_eq])
            · -- Formatter
              rename_i fmt argIds heq
              obtain ⟨a, ha, h⟩ := exc_bind_eq_ok h
              split at h
              rename_i vals env1
              obtain ⟨s, hs, h⟩ := exc_bind_eq_ok h
              exact (ihL argIds env ctx (vals, env1) ha).of_pure h
            · -- FieldAccess
              rename_i infos re heq
              obtain ⟨a, ha, h⟩ := exc_bind_eq_ok h
              split at h
              rename_i rv env1
              have hc := ihE re env ctx (rv, env1) ha
              split at h
              · obtain ⟨v, hv, h⟩ := exc_bind_eq_ok h
                exact hc.of_pure h
              · exact absurd h (by simp [exc_throw_eq])
            · -- CaseOf
              rename_i body cases2 heq
              obtain ⟨a, ha, h⟩ := exc_bind_eq_ok h
              split at h
              rename_i cv env1
              obtain ⟨rv, hrv, h⟩ := exc_bind_eq_ok h
              exact (ihE body env ctx (cv, env1) ha).of_pure h
            · -- RecordInitialization
              rename_i tid items heq
              obtain ⟨a, ha, h⟩ := exc_bind_eq_ok h
              split at h
              rename_i vals env1
              exact (ihRI items _ env ctx (vals, env1) ha).of_pure h
            · -- RecordUpdate
              rename_i re updates heq
              obtain ⟨a, ha, h⟩ := exc_bind_eq_ok h
              split at h
              rename_i rv env1
              have hc := ihE re env ctx (rv, env1) ha
              split at h
              · rename_i id vs hcore
                obtain ⟨b, hb, h⟩ := exc_bind_eq_ok h
                split at h
                rename_i vals env2
                exact (hc.trans (ihRU updates id vs env1 ctx (vals, env2) hb)).of_pure h
              · exact absurd h (by simp [exc_throw_eq])
            · -- ClassFunctionCall
              rename_i mid argIds heq
              obtain ⟨a, ha, h⟩ := exc_bind_eq_ok h
              split at h
              rename_i argVals env1
              obtain ⟨rv, hrv, h⟩ := exc_bind_eq_ok h
              exact (ihL argIds env ctx (argVals, env1) ha).of_pure h
          · exact absurd h (by simp [exc_throw_eq])
        · exact absurd h (by simp [exc_throw_eq])
      · exact absurd h (by simp [exc_throw_eq])
    · -- evalList
      intro es env ctx r h
      cases es with
      | nil =>
        rw [evalList] at h
        simp only [exc_pure_eq, Except.ok.injEq] at h
        rw [← h]
        exact EnvExt.refl env
      | cons e rest =>
        rw [evalList] at h
        obtain ⟨a, ha, h⟩ := exc_bind_eq_ok h
        split at h
        rename_i v env1
        obtain ⟨b, hb, h⟩ := exc_bind_eq_ok h
        split at h
        rename_i vs env2
        exact ((ihE e env ctx (v, env1) ha).trans
          (ihL rest env1 ctx (vs, env2) hb)).of_pure h
    · -- evalDo
      intro es acc env ctx r h
      cases es with
      | nil =>
        rw [evalDo] at h
        simp only [exc_pure_eq, Except.ok.injEq] at h
        rw [← h]
        exact EnvExt.refl env
      | cons e rest =>
        rw [evalDo] at h
        obtain ⟨a, ha, h⟩ := exc_bind_eq_ok h
        split at h
        rename_i v env1
        exact (ihE e env ctx (v, env1) ha).trans (ihD rest v env1 ctx r h)
    · -- matchPattern
      intro pid v env ctx r h
      rw [matchPattern] at h
      split at h
      · split at h
        · -- Binding
          simp only [exc_pure_eq, Except.ok.injEq] at h
          rw [← h]
          exact EnvExt.add env pid v
        · -- Tuple
          rename_i ids heq
          split at h
          · rename_i vs hcore
            exact ihML ids vs env ctx r h
          · exact (EnvExt.refl env).of_pure h
        · -- Record
          rename_i ptid pids heq
          split at h
          · rename_i tid vs hcore
            split at h
            · exact ihML pids vs env ctx r h
            · exact (EnvExt.refl env).of_pure h
          · exact (EnvExt.refl env).of_pure h
        · -- Variant
          rename_i ptid pidx pids heq
          split at h
          · rename_i tid idx vs hcore
            split at h
            · exact ihML pids vs env ctx r h
            · exact (EnvExt.refl env).of_pure h
          · exact (EnvExt.refl env).of_pure h
        · -- Guarded
          rename_i inner gid heq
          obtain ⟨a, ha, h⟩ := exc_bind_eq_ok h
          split at h
          rename_i m env1
          have hm := ihM inner v env ctx (m, env1) ha
          split at h
          · obtain ⟨b, hb, h⟩ := exc_bind_eq_ok h
            split at h
            rename_i gv env2
            have hg := ihE gid env1 ctx (gv, env2) hb
            split at h
            · exact (hm.trans hg).of_pure h
            · exact absurd h (by simp [exc_throw_eq])
          · exact hm.of_pure h
        · -- Typed
          rename_i inner sig heq
          exact ihM inner v env ctx r h
        · -- Wildcard
          exact (EnvExt.refl env).of_pure h
        · -- IntegerLiteral
          split at h
          · exact (EnvExt.refl env).of_pure h
          · exact (EnvExt.refl env).of_pure h
        · -- FloatLiteral
          split at h
          · exact (EnvExt.refl env).of_pure h
          · exact (EnvExt.refl env).of_pure h
        · -- StringLiteral
          split at h
          · exact (EnvExt.refl env).of_pure h
          · exact (EnvExt.refl env).of_pure h
        · -- BoolLiteral
          split at h
          · exact (EnvExt.refl env).of_pure h
          · exact (EnvExt.refl env).of_pure h
      · exact absurd h (by simp [exc_throw_eq])
    · -- matchList
      intro pids vs env ctx r h
      cases pids with
      | nil =>
        rw [matchList] at h
        simp only [exc_pure_eq, Except.ok.injEq] at h
        rw [← h]
        exact EnvExt.refl env
      | cons pid rest =>
        cases vs with
        | nil =>
          rw [matchList] at h
          exact absurd h (by simp [exc_throw_eq])
        | cons v vrest =>
          rw [matchList] at h
          obtain ⟨a, ha, h⟩ := exc_bind_eq_ok h
          split at h
          rename_i m env1
          have hm := ihM pid v env ctx (m, env1) ha
          split at h
          · exact hm.trans (ihML rest vrest env1 ctx r h)
          · exact hm.of_pure h
    · -- recordInitLoop
      intro items vals env ctx r h
      cases items with
      | nil =>
        rw [recordInitLoop] at h
        simp only [exc_pure_eq, Except.ok.injEq] at h
        rw [← h]
        exact EnvExt.refl env
      | cons item rest =>
        rw [recordInitLoop] at h
        obtain ⟨a, ha, h⟩ := exc_bind_eq_ok h
        split at h
        rename_i v env1
        have he := ihE item.expr_id env ctx (v, env1) ha
        split at h
        · exact he.trans (ihRI rest _ env1 ctx r h)
        · exact absurd h (by simp [exc_throw_eq])
    · -- recordUpdateLoop
      intro us id vals env ctx r h
      cases us with
      | nil =>
        rw [recordUpdateLoop] at h
        exact absurd h (by simp [exc_throw_eq])
      | cons u urest =>
        rw [recordUpdateLoop] at h
        split at h
        · exact ihRI u.items vals env ctx r h
        · exact ihRU urest id vals env ctx r h

end Siko

namespace Siko

/-- The pattern table of the C1 example: pattern 1 is the tuple pattern
`(x, 5)` — a binding followed by an integer literal. -/
def P1cex : Program :=
  { emptyProgram with
    patterns := fun pid =>
      if pid = 1 then some (.Tuple [2, 3])
      else if pid = 2 then some (.Binding "x")
      else if pid = 3 then some (.IntegerLiteral 5) else none }

/-- The interpreter over `P1cex`. -/
def I1cex : Interp := ⟨P1cex, noExterns⟩

/-- The runtime tuple `(1, 6)`, which fails against pattern `(x, 5)`
only after the binding sub-pattern has already matched. -/
def v1cex : Value :=
  Value.mk (.Tuple [Value.mk (.Int 1) tyInt, Value.mk (.Int 6) tyInt]) (.Tuple [tyInt, tyInt])

/-- C1 counterexample: matching `(1, 6)` against the pattern `(x, 5)`
returns `false`, yet the environment after the call carries the binding
`x ↦ 1` added by the first sub-pattern — it does not equal the
environment before the call. -/
theorem C1_failed_match_mutates_env :
    matchPattern I1cex 4 1 v1cex env0 [] =
      .ok (false, env0.add 2 (Value.mk (.Int 1) tyInt)) ∧
    env0.add 2 (Value.mk (.Int 1) tyInt) ≠ env0 := by
  constructor
  · simp [matchPattern, matchList, I1cex, P1cex, emptyProgram, v1cex, Value.core_mk,
      exc_pure_eq, exc_bind_ok]
  · intro hcontra
    have hh := congrArg Environment.head hcontra
    simp [Environment.add, env0, Environment.new] at hh

/-- C1 (amended): whatever `match_pattern` returns — `true` or
`false` — the environment after the call extends the environment
before it: bindings made by sub-patterns that matched before a failure
are retained (prepended to the innermost frame), and nothing else about
the environment changes.  The claim's "unchanged on failure" holds only
from the perspective of callers that match inside a fresh block-child
environment (as `CaseOf` does). -/
theorem C1_match_pattern_extends_env (I : Interp) (n pid : Nat) (v : Value)
    (env : Environment) (ctx : SubstitutionContext) (b : Bool) (env' : Environment)
    (h : matchPattern I n pid v env ctx = .ok (b, env')) : EnvExt env env' :=
  (envExt_eval I n).2.2.2.1 pid v env ctx (b, env') h

/-- Witness for the amended C1 theorem at the concrete failing match. -/
theorem C1_match_pattern_extends_env_witness :
    matchPattern I1cex 4 1 v1cex env0 [] =
      .ok (false, env0.add 2 (Value.mk (.Int 1) tyInt)) ∧
    EnvExt env0 (env0.add 2 (Value.mk (.Int 1) tyInt)) :=
  ⟨by
    simp [matchPattern, matchList, I1cex, P1cex, emptyProgram, v1cex, Value.core_mk,
      exc_pure_eq, exc_bind_ok],
   C1_match_pattern_extends_env I1cex 4 1 v1cex env0 [] false _ (by
    simp [matchPattern, matchList, I1cex, P1cex, emptyProgram, v1cex, Value.core_mk,
      exc_pure_eq, exc_bind_ok])⟩

end Siko

namespace Siko

/-- The string the `Formatter` loop produces, as a pure function of the
format-string pieces and the rendered argument strings: each piece is
followed by the rendering of the argument at the same index when one
exists; pieces beyond the argument list are emitted bare; arguments
beyond the piece list are dropped. -/
def renderSpec : List (List Char) → List String → String
  | [], _ => ""
  | p :: ps, [] => String.mk p ++ renderSpec ps []
  | p :: ps, s :: ss => String.mk p ++ s ++ renderSpec ps ss

/-- The `Formatter` rendering loop computes `renderSpec` of the pieces
and the `show`-rendered arguments, given that `show` succeeds on each
argument that has a piece (with fuel to spare). -/
theorem formatLoop_renders (I : Interp) (n0 : Nat) (hn0 : 1 ≤ n0) :
    ∀ (ps : List (List Char)) (vs : List Value) (ss : List String) (acc : String) (n : Nat),
      ps.length + n0 ≤ n →
      ss.length = min ps.length vs.length →
      (∀ p ∈ vs.zip ss, ∀ m, n0 ≤ m → callShow I m p.1 = .ok p.2) →
      formatLoop I n ps vs acc = .ok (acc ++ renderSpec ps ss) := by
  intro ps
  induction ps with
  | nil =>
    intro vs ss acc n hfuel hlen hshow
    cases n with
    | zero => omega
    | succ k =>
      rw [formatLoop, renderSpec]
      simp [exc_pure_eq, String.append_empty]
  | cons p ps ih =>
    intro vs ss acc n hfuel hlen hshow
    cases n with
    | zero => simp only [List.length_cons] at hfuel; omega
    | succ k =>
      cases vs with
      | nil =>
        cases ss with
        | cons s ss2 => simp at hlen
        | nil =>
          rw [formatLoop, renderSpec]
          rw [ih [] [] (acc ++ String.mk p) k (by simp at hfuel ⊢; omega) (by simp)
            (by intro q hq; simp at hq)]
          simp [String.append_assoc]
      | cons v vs2 =>
        cases ss with
        | nil => simp at hlen; omega
        | cons s ss2 =>
          rw [formatLoop, renderSpec]
          have hsv : callShow I k v = .ok s := by
            refine hshow (v, s) (by simp) k (by simp at hfuel; omega)
          rw [hsv]
          simp only [exc_bind_ok]
          rw [ih vs2 ss2 (acc ++ String.mk p ++ s) k
            (by simp at hfuel ⊢; omega)
            (by simp at hlen; omega)
            (by intro q hq; exact hshow q (by simp [hq]))]
          simp [String.append_assoc]

/-- C10: `Formatter` evaluation.  The argument expressions are all
evaluated left to right (the `evalList` hypothesis); the result is the
concatenation, per `renderSpec`, of the `{}`-split pieces of the format
string interleaved with `show` of the arguments that have a piece
(arguments beyond the pieces are evaluated but dropped); and no
hypothesis relates the placeholder count to the argument count —
evaluation succeeds regardless of any mismatch. -/
theorem C10_formatter_semantics (I : Interp) (n eid : Nat) (env : Environment)
    (ctx : SubstitutionContext) (fmt : String) (argIds : List Nat) (tyId : Nat)
    (ty : ConcreteType) (vs : List Value) (env1 : Environment) (ss : List String) (n0 : Nat)
    (h1 : I.program.exprs eid = some (.Formatter fmt argIds))
    (h2 : I.program.expr_types eid = some tyId)
    (h3 : to_concrete_type I.program (n+1) tyId ctx = some ty)
    (hargs : evalList I n argIds env ctx = .ok (vs, env1))
    (hn0 : 1 ≤ n0)
    (hfuel : (splitFmt fmt.data).length + n0 ≤ n)
    (hlen : ss.length = min (splitFmt fmt.data).length vs.length)
    (hshow : ∀ p ∈ vs.zip ss, ∀ m, n0 ≤ m → callShow I m p.1 = .ok p.2) :
    evalExpr I (n+1) eid env ctx =
      .ok (Value.mk (.String (renderSpec (splitFmt fmt.data) ss)) ty, env1) := by
  rw [evalExpr]
  simp only [h1, h2, h3]
  rw [hargs]
  simp only [exc_bind_ok]
  rw [formatLoop_renders I n0 hn0 (splitFmt fmt.data) vs ss "" n hfuel hlen hshow]
  simp [exc_bind_ok, exc_pure_eq, String.empty_append]

/-- A program whose expression 0 is `Formatter "a{}b" []` — one
placeholder, zero arguments (a count mismatch). -/
def P10w : Program :=
  { emptyProgram with
    exprs := fun eid =>
      if eid = 0 then some (.Formatter (String.mk ['a', '{', '}', 'b']) []) else none
    expr_types := fun eid => if eid = 0 then some 0 else none
    types := fun tid => if tid = 0 then some (.Named "String" 5 []) else none }

/-- The interpreter over `P10w`. -/
def I10w : Interp := ⟨P10w, noExterns⟩

/-- Witness for the C10 theorem at a mismatched formatter (one
placeholder, zero arguments): evaluation still succeeds. -/
theorem C10_formatter_semantics_witness :
    (I10w.program.exprs 0 = some (.Formatter (String.mk ['a', '{', '}', 'b']) []) ∧
      evalList I10w 3 [] env0 [] = .ok ([], env0) ∧
      countPlaceholders (String.mk ['a', '{', '}', 'b']).data ≠ ([] : List Nat).length) ∧
    evalExpr I10w 4 0 env0 [] =
      .ok (Value.mk
        (.String (renderSpec (splitFmt (String.mk ['a', '{', '}', 'b']).data) []))
        (.Named "String" 5 []), env0) :=
  ⟨⟨rfl, by rw [evalList]; rfl, by simp [countPlaceholders]⟩,
    C10_formatter_semantics I10w 3 0 env0 [] (String.mk ['a', '{', '}', 'b']) [] 0
      (.Named "String" 5 []) [] env0 [] 1 rfl rfl
      (by simp [I10w, P10w, emptyProgram, to_concrete_type, toConcreteList])
      (by rw [evalList]; rfl) (by omega)
      (by simp [splitFmt]) (by simp) (by intro p hp; simp at hp)⟩

end Siko

namespace Siko

/-- Success of a plain `pure` determines the result. -/
theorem exc_pure_eq_ok {α : Type} {x r : α}
    (h : (pure x : Except RtError α) = .ok r) : r = x := by
  simpa [exc_pure_eq] using h.symm

/-- `valueOk` reads the invariant off the value's core. -/
theorem valueOk_core (P : Program) (v : Value) : valueOk P v = coreOk P v.core := by
  cases v
  rfl

/-- Every member of an invariant-satisfying list satisfies the
invariant. -/
theorem valuesOk_mem (P : Program) : ∀ {vs : List Value}, valuesOk P vs = true →
    ∀ {v : Value}, v ∈ vs → valueOk P v = true := by
  intro vs
  induction vs with
  | nil => intro _ v hv; simp at hv
  | cons w ws ih =>
    intro hok v hv
    rw [valuesOk] at hok
    simp only [Bool.and_eq_true] at hok
    rcases List.mem_cons.mp hv with h | h
    · rw [h]; exact hok.1
    · exact ih hok.2 h

/-- `valuesOk` distributes over append. -/
theorem valuesOk_append (P : Program) : ∀ (a b : List Value),
    valuesOk P (a ++ b) = (valuesOk P a && valuesOk P b) := by
  intro a
  induction a with
  | nil => intro b; simp [valuesOk]
  | cons w ws ih =>
    intro b
    rw [List.cons_append, valuesOk, valuesOk, ih, Bool.and_assoc]

/-- `valuesOk` is preserved by `take`. -/
theorem valuesOk_take (P : Program) {vs : List Value} (h : valuesOk P vs = true) (k : Nat) :
    valuesOk P (vs.take k) = true := by
  have := valuesOk_append P (vs.take k) (vs.drop k)
  rw [List.take_append_drop] at this
  rw [h] at this
  exact (Bool.and_eq_true _ _).mp this.symm |>.1

/-- `valuesOk` is preserved by `drop`. -/
theorem valuesOk_drop (P : Program) {vs : List Value} (h : valuesOk P vs = true) (k : Nat) :
    valuesOk P (vs.drop k) = true := by
  have := valuesOk_append P (vs.take k) (vs.drop k)
  rw [List.take_append_drop] at this
  rw [h] at this
  exact (Bool.and_eq_true _ _).mp this.symm |>.2

/-- `valuesOk` is preserved by `set`. -/
theorem valuesOk_set (P : Program) : ∀ (vs : List Value) (i : Nat) (v : Value),
    valuesOk P vs = true → valueOk P v = true → valuesOk P (vs.set i v) = true := by
  intro vs
  induction vs with
  | nil => intro i v _ _; simp [valuesOk]
  | cons w ws ih =>
    intro i v hok hv
    rw [valuesOk, Bool.and_eq_true] at hok
    cases i with
    | zero => rw [List.set_cons_zero, valuesOk, hv, hok.2]; rfl
    | succ j =>
      rw [List.set_cons_succ, valuesOk, hok.1, ih j v hok.2 hv]
      rfl

/-- `valuesOk` holds for replicated invariant-satisfying values. -/
theorem valuesOk_replicate (P : Program) (k : Nat) (v : Value) (hv : valueOk P v = true) :
    valuesOk P (List.replicate k v) = true := by
  induction k with
  | zero => rw [List.replicate_zero, valuesOk]
  | succ j ih => rw [List.replicate_succ, valuesOk, hv, ih]; rfl

/-- An indexed element of an invariant-satisfying list satisfies the
invariant. -/
theorem valuesOk_get (P : Program) {vs : List Value} (h : valuesOk P vs = true) {i : Nat}
    {v : Value} (hg : vs.get? i = some v) : valueOk P v = true :=
  valuesOk_mem P h (List.get?_mem hg)

/-- All bindings and arguments of a fresh call environment satisfy the
invariant when the arguments do. -/
theorem envOk_new (P : Program) (fid : Nat) (args : List Value) (k : Nat)
    (h : ∀ v ∈ args, valueOk P v = true) : envOk P (Environment.new fid args k) := by
  refine ⟨?_, h⟩
  intro f hf p hp
  simp [Environment.new] at hf
  rw [hf] at hp
  simp at hp

/-- `block_child` preserves the environment invariant. -/
theorem envOk_block_child (P : Program) {e : Environment} (h : envOk P e) :
    envOk P e.block_child := by
  obtain ⟨hf, ha⟩ := h
  refine ⟨?_, ha⟩
  intro f hfm p hp
  simp only [Environment.block_child, List.mem_cons] at hfm
  rcases hfm with h1 | h1
  · rw [h1] at hp; simp at hp
  · exact hf f (by simpa using h1) p hp

/-- `add` preserves the environment invariant when the added value
satisfies the value invariant. -/
theorem envOk_add (P : Program) {e : Environment} (h : envOk P e) (pid : Nat) {v : Value}
    (hv : valueOk P v = true) : envOk P (e.add pid v) := by
  obtain ⟨hf, ha⟩ := h
  refine ⟨?_, ha⟩
  intro f hfm p hp
  simp only [Environment.add, List.mem_cons] at hfm
  rcases hfm with h1 | h1
  · rw [h1] at hp
    rcases List.mem_cons.mp hp with h2 | h2
    · rw [h2]; exact hv
    · exact hf e.head (by simp) p h2
  · exact hf f (by simp [h1]) p hp

/-- A frame-stack lookup returns a binding of one of the frames. -/
theorem lookupFrames_mem : ∀ {fs : List (List (Nat × Value))} {pid : Nat} {v : Value},
    lookupFrames fs pid = some v → ∃ f ∈ fs, ∃ p ∈ f, p.2 = v := by
  intro fs
  induction fs with
  | nil => intro pid v h; simp [lookupFrames] at h
  | cons f rest ih =>
    intro pid v h
    rw [lookupFrames] at h
    cases hl : alookupBy (· == ·) f pid with
    | some w =>
      rw [hl] at h
      obtain rfl : w = v := by simpa using h
      clear h
      induction f with
      | nil => simp [alookupBy] at hl
      | cons q qs ihf =>
        rw [alookupBy] at hl
        by_cases hq : q.1 == pid
        · rw [if_pos hq] at hl
          obtain rfl : q.2 = w := by simpa using hl
          exact ⟨q :: qs, by simp, q, by simp, rfl⟩
        · rw [if_neg hq] at hl
          obtain ⟨f2, hf2, p, hp, hpv⟩ := ihf hl
          rcases List.mem_cons.mp hf2 with h1 | h1
          · exact ⟨q :: qs, by simp, p, List.mem_cons_of_mem q (h1 ▸ hp), hpv⟩
          · exact ⟨f2, by simp [h1], p, hp, hpv⟩
    | none =>
      rw [hl] at h
      obtain ⟨f2, hf2, p, hp, hpv⟩ := ih h
      exact ⟨f2, by simp [hf2], p, hp, hpv⟩

/-- A `get_value` hit on an invariant-satisfying environment satisfies
the value invariant. -/
theorem envOk_get_value (P : Program) {e : Environment} (h : envOk P e) {pid : Nat} {v : Value}
    (hg : e.get_value pid = some v) : valueOk P v = true := by
  obtain ⟨f, hf, p, hp, hpv⟩ := lookupFrames_mem hg
  rw [← hpv]
  exact h.1 f hf p hp

/-- A `get_arg` hit on an invariant-satisfying environment satisfies
the value invariant. -/
theorem envOk_get_arg (P : Program) {e : Environment} (h : envOk P e) {r : ArgRefE} {v : Value}
    (hg : e.get_arg r = some v) : valueOk P v = true :=
  h.2 v (List.get?_mem hg)

/-- A `get_arg_by_index` hit on an invariant-satisfying environment
satisfies the value invariant. -/
theorem envOk_get_arg_by_index (P : Program) {e : Environment} (h : envOk P e) {i : Nat}
    {v : Value} (hg : e.get_arg_by_index i = some v) : valueOk P v = true :=
  h.2 v (List.get?_mem hg)

/-- The constructor argument-gathering loop returns exactly as many
values as requested, all drawn from the environment's argument
slice. -/
theorem gatherArgsFrom_spec (env : Environment) : ∀ (k i : Nat) (vs : List Value),
    gatherArgsFrom env i k = some vs →
    vs.length = k ∧ ∀ v ∈ vs, ∃ j, env.get_arg_by_index j = some v := by
  intro k
  induction k with
  | zero =>
    intro i vs h
    rw [gatherArgsFrom] at h
    obtain rfl : vs = [] := by simpa using h.symm
    exact ⟨rfl, by simp⟩
  | succ j ih =>
    intro i vs h
    rw [gatherArgsFrom] at h
    cases hv : env.get_arg_by_index i with
    | none => rw [hv] at h; simp at h
    | some v =>
      rw [hv] at h
      cases hrest : gatherArgsFrom env (i+1) j with
      | none => rw [hrest] at h; simp at h
      | some ws =>
        rw [hrest] at h
        obtain rfl : vs = v :: ws := by simpa using h.symm
        obtain ⟨hlen, hmem⟩ := ih (i+1) ws hrest
        refine ⟨by simp [hlen], ?_⟩
        intro w hw
        rcases List.mem_cons.mp hw with h1 | h1
        · exact ⟨i, by rw [← h1] at hv; exact hv⟩
        · exact hmem w h1

/-- `findField` returns one of the record's field values. -/
theorem findField_mem : ∀ {infos : List FieldAccessInfo} {id : Nat} {vs : List Value}
    {v : Value}, findField infos id vs = .ok v → v ∈ vs := by
  intro infos
  induction infos with
  | nil => intro id vs v h; rw [findField] at h; exact absurd h (by simp [exc_throw_eq])
  | cons info rest ih =>
    intro id vs v h
    rw [findField] at h
    by_cases hid : info.record_id = id
    · rw [if_pos hid] at h
      cases hg : vs.get? info.index with
      | none => rw [hg] at h; exact absurd h (by simp [exc_throw_eq])
      | some w =>
        rw [hg] at h
        obtain rfl : w = v := by simpa [exc_pure_eq] using h
        exact List.get?_mem hg
    · rw [if_neg hid] at h
      exact ih h

end Siko

namespace Siko

/-- A list all of whose members satisfy the value invariant satisfies
`valuesOk`. -/
theorem valuesOk_of_forall (P : Program) : ∀ {vs : List Value},
    (∀ v ∈ vs, valueOk P v = true) → valuesOk P vs = true := by
  intro vs
  induction vs with
  | nil => intro _; rw [valuesOk]
  | cons w ws ih =>
    intro h
    rw [valuesOk, h w (by simp), ih (fun v hv => h v (by simp [hv]))]
    rfl

/-- `valuesOk` on a cons, split. -/
theorem valuesOk_cons (P : Program) {v : Value} {vs : List Value}
    (h : valuesOk P (v :: vs) = true) : valueOk P v = true ∧ valuesOk P vs = true := by
  rw [valuesOk, Bool.and_eq_true] at h
  exact h

end Siko

namespace Siko

/-- Fuel-indexed preservation of the variant-arity invariant across the
whole evaluator: assuming the registered extern functions preserve it,
every entry point returns invariant-satisfying values and environments
when fed invariant-satisfying ones. -/
theorem valueOk_eval (I : Interp) (hext : externsOk I) : ∀ n,
    (∀ eid env ctx r, envOk I.program env → evalExpr I n eid env ctx = .ok r →
      valueOk I.program r.1 = true ∧ envOk I.program r.2) ∧
    (∀ es env ctx r, envOk I.program env → evalList I n es env ctx = .ok r →
      valuesOk I.program r.1 = true ∧ envOk I.program r.2) ∧
    (∀ es acc env ctx r, envOk I.program env → valueOk I.program acc = true →
      evalDo I n es acc env ctx = .ok r →
      valueOk I.program r.1 = true ∧ envOk I.program r.2) ∧
    (∀ pid v env ctx r, envOk I.program env → valueOk I.program v = true →
      matchPattern I n pid v env ctx = .ok r → envOk I.program r.2) ∧
    (∀ pids vs env ctx r, envOk I.program env → valuesOk I.program vs = true →
      matchList I n pids vs env ctx = .ok r → envOk I.program r.2) ∧
    (∀ cv args eid v, valueOk I.program cv = true → valuesOk I.program args = true →
      call I n cv args eid = .ok v → valueOk I.program v = true) ∧
    (∀ c ty eid v, valuesOk I.program c.values = true → callLoop I n c ty eid = .ok v →
      valueOk I.program v = true) ∧
    (∀ fid env eid ctx ty v, envOk I.program env → execute I n fid env eid ctx ty = .ok v →
      valueOk I.program v = true) ∧
    (∀ mid args eid ty v, valuesOk I.program args = true →
      callClassMember I n mid args eid ty = .ok v → valueOk I.program v = true) ∧
    (∀ args cn mn ty v, valuesOk I.program args = true →
      callSpecific I n args cn mn ty = .ok v → valueOk I.program v = true) ∧
    (∀ cs cv env ctx v, envOk I.program env → valueOk I.program cv = true →
      caseLoop I n cs cv env ctx = .ok v → valueOk I.program v = true) ∧
    (∀ items vals env ctx r, envOk I.program env → valuesOk I.program vals = true →
      recordInitLoop I n items vals env ctx = .ok r →
      valuesOk I.program r.1 = true ∧ envOk I.program r.2) ∧
    (∀ us id vals env ctx r, envOk I.program env → valuesOk I.program vals = true →
      recordUpdateLoop I n us id vals env ctx = .ok r →
      valuesOk I.program r.1 = true ∧ envOk I.program r.2) := by
  intro n
  induction n with
  | zero =>
    refine ⟨fun a b c d _ h => ?_, fun a b c d _ h => ?_, fun a b c d e _ _ h => ?_,
      fun a b c d e _ _ h => ?_, fun a b c d e _ _ h => ?_, fun a b c d _ _ h => ?_,
      fun a b c d _ h => ?_, fun a b c d e f _ h => ?_, fun a b c d e _ h => ?_,
      fun a b c d e _ h => ?_, fun a b c d e _ _ h => ?_, fun a b c d e _ _ h => ?_,
      fun a b c d e f _ _ h => ?_⟩
    · rw [evalExpr] at h; exact absurd h (by simp [exc_throw_eq])
    · rw [evalList] at h; exact absurd h (by simp [exc_throw_eq])
    · rw [evalDo] at h; exact absurd h (by simp [exc_throw_eq])
    · rw [matchPattern] at h; exact absurd h (by simp [exc_throw_eq])
    · rw [matchList] at h; exact absurd h (by simp [exc_throw_eq])
    · rw [call] at h; exact absurd h (by simp [exc_throw_eq])
    · rw [callLoop] at h; exact absurd h (by simp [exc_throw_eq])
    · rw [execute] at h; exact absurd h (by simp [exc_throw_eq])
    · rw [callClassMember] at h; exact absurd h (by simp [exc_throw_eq])
    · rw [callSpecific] at h; exact absurd h (by simp [exc_throw_eq])
    · rw [caseLoop] at h; exact absurd h (by simp [exc_throw_eq])
    · rw [recordInitLoop] at h; exact absurd h (by simp [exc_throw_eq])
    · rw [recordUpdateLoop] at h; exact absurd h (by simp [exc_throw_eq])
  | succ n ih =>
    obtain ⟨ihE, ihL, ihD, ihM, ihML, ihC, ihCL, ihX, ihCM, ihCS, ihCase, ihRI, ihRU⟩ := ih
    refine ⟨?_, ?_, ?_, ?_, ?_, ?_, ?_, ?_, ?_, ?_, ?_, ?_, ?_⟩
    · -- evalExpr
      intro eid env ctx r henv h
      rw [evalExpr] at h
      split at h
      · split at h
        · split at h
          · split at h
            · -- IntegerLiteral
              obtain rfl := exc_pure_eq_ok h
              exact ⟨by simp [valueOk, coreOk], henv⟩
            · -- StringLiteral
              obtain rfl := exc_pure_eq_ok h
              exact ⟨by simp [valueOk, coreOk], henv⟩
            · -- FloatLiteral
              obtain rfl := exc_pure_eq_ok h
              exact ⟨by simp [valueOk, coreOk], henv⟩
            · -- BoolLiteral
              obtain rfl := exc_pure_eq_ok h
              exact ⟨by simp [valueOk, coreOk], henv⟩
            · -- ArgRef
              split at h
              · rename_i v hargs
                obtain rfl := exc_pure_eq_ok h
                exact ⟨envOk_get_arg I.program henv hargs, henv⟩
              · exact absurd h (by simp [exc_throw_eq])
            · -- StaticFunctionCall
              rename_i fid argIds hexpr
              split at h
              · split at h
                · obtain ⟨a, ha, h⟩ := exc_bind_eq_ok h
                  split at h
                  rename_i argVals env1
                  have hL := ihL argIds env ctx (argVals, env1) henv ha
                  split at h
                  · split at h
                    · obtain ⟨rv, hrv, h⟩ := exc_bind_eq_ok h
                      have hr := ihC _ _ _ _
                        (by simp [valueOk, coreOk, valuesOk]) hL.1 hrv
                      obtain rfl := exc_pure_eq_ok h
                      exact ⟨hr, hL.2⟩
                    · exact absurd h (by simp [exc_throw_eq])
                  · exact absurd h (by simp [exc_throw_eq])
                · exact absurd h (by simp [exc_throw_eq])
              · exact absurd h (by simp [exc_throw_eq])
            · -- DynamicFunctionCall
              rename_i fe argIds hexpr
              obtain ⟨a, ha, h⟩ := exc_bind_eq_ok h
              split at h
              rename_i fv env1
              have hE := ihE fe env ctx (fv, env1) henv ha
              obtain ⟨b, hb, h⟩ := exc_bind_eq_ok h
              split at h
              rename_i argVals env2
              have hL := ihL argIds env1 ctx (argVals, env2) hE.2 hb
              obtain ⟨rv, hrv, h⟩ := exc_bind_eq_ok h
              have hr := ihC _ _ _ _ hE.1 hL.1 hrv
              obtain rfl := exc_pure_eq_ok h
              exact ⟨hr, hL.2⟩
            · -- Do
              split at h
              · exact absurd h (by simp [exc_throw_eq])
              · obtain ⟨a, ha, h⟩ := exc_bind_eq_ok h
                have hD := ihD _ _ _ _ a (envOk_block_child I.program henv)
                  (by simp [valueOk, coreOk, valuesOk]) ha
                obtain rfl := exc_pure_eq_ok h
                exact ⟨hD.1, henv⟩
            · -- Bind
              rename_i pid rhs hexpr
              obtain ⟨a, ha, h⟩ := exc_bind_eq_ok h
              split at h
              rename_i v env1
              have hE := ihE rhs env ctx (v, env1) henv ha
              obtain ⟨b, hb, h⟩ := exc_bind_eq_ok h
              split at h
              rename_i m env2
              have hM := ihM pid v env1 ctx (m, env2) hE.2 hE.1 hb
              split at h
              · obtain rfl := exc_pure_eq_ok h
                exact ⟨by simp [valueOk, coreOk, valuesOk], hM⟩
              · exact absurd h (by simp [exc_throw_eq])
            · -- ExprValue
              split at h
              · rename_i v hval
                obtain rfl := exc_pure_eq_ok h
                exact ⟨envOk_get_value I.program henv hval, henv⟩
              · exact absurd h (by simp [exc_throw_eq])
            · -- If
              rename_i cond tb eb hexpr
              obtain ⟨a, ha, h⟩ := exc_bind_eq_ok h
              split at h
              rename_i cv env1
              have hE := ihE cond env ctx (cv, env1) henv ha
              split at h
              · exact ihE tb env1 ctx r hE.2 h
              · exact ihE eb env1 ctx r hE.2 h
              · exact absurd h (by simp [exc_throw_eq])
            · -- Tuple
              rename_i ids hexpr
              obtain ⟨a, ha, h⟩ := exc_bind_eq_ok h
              split at h
              rename_i vs env1
              have hL := ihL ids env ctx (vs, env1) henv ha
              obtain rfl := exc_pure_eq_ok h
              refine ⟨?_, hL.2⟩
              simp only [valueOk, coreOk]
              exact hL.1
            · -- List
              rename_i ids hexpr
              obtain ⟨a, ha, h⟩ := exc_bind_eq_ok h
              split at h
              rename_i vs env1
              have hL := ihL ids env ctx (vs, env1) henv ha
              obtain rfl := exc_pure_eq_ok h
              refine ⟨?_, hL.2⟩
              simp only [valueOk, coreOk]
              exact hL.1
            · -- TupleFieldAccess
              rename_i idx te hexpr
              obtain ⟨a, ha, h⟩ := exc_bind_eq_ok h
              split at h
              rename_i tv env1
              have hE := ihE te env ctx (tv, env1) henv ha
              split at h
              · rename_i vs hcore
                split at h
                · rename_i v hget
                  obtain rfl := exc_pure_eq_ok h
                  have hvs : valuesOk I.program vs = true := by
                    have h2 := hE.1
                    rw [valueOk_core, hcore] at h2
                    simpa [coreOk] using h2
                  exact ⟨valuesOk_get I.program hvs hget, hE.2⟩
                · exact absurd h (by simp [exc_throw_eq])
              · exact absurd h (by simp [exc_throw_eq])
            · -- Formatter
              rename_i fmt argIds hexpr
              obtain ⟨a, ha, h⟩ := exc_bind_eq_ok h
              split at h
              rename_i vals env1
              have hL := ihL argIds env ctx (vals, env1) henv ha
              obtain ⟨s, hs, h⟩ := exc_bind_eq_ok h
              obtain rfl := exc_pure_eq_ok h
              exact ⟨by simp [valueOk, coreOk], hL.2⟩
            · -- FieldAccess
              rename_i infos re hexpr
              obtain ⟨a, ha, h⟩ := exc_bind_eq_ok h
              split at h
              rename_i rv env1
              have hE := ihE re env ctx (rv, env1) henv ha
              split at h
              · rename_i id vs hcore
                obtain ⟨v, hfind, h⟩ := exc_bind_eq_ok h
                obtain rfl := exc_pure_eq_ok h
                have hvs : valuesOk I.program vs = true := by
                  have h2 := hE.1
                  rw [valueOk_core, hcore] at h2
                  simpa [coreOk] using h2
                exact ⟨valuesOk_mem I.program hvs (findField_mem hfind), hE.2⟩
              · exact absurd h (by simp [exc_throw_eq])
            · -- CaseOf
              rename_i body cases2 hexpr
              obtain ⟨a, ha, h⟩ := exc_bind_eq_ok h
              split at h
              rename_i cv env1
              have hE := ihE body env ctx (cv, env1) henv ha
              obtain ⟨rv, hrv, h⟩ := exc_bind_eq_ok h
              have hr := ihCase cases2 cv env1 ctx rv hE.2 hE.1 hrv
              obtain rfl := exc_pure_eq_ok h
              exact ⟨hr, hE.2⟩
            · -- RecordInitialization
              rename_i tid items hexpr
              obtain ⟨a, ha, h⟩ := exc_bind_eq_ok h
              split at h
              rename_i vals env1
              have hRI := ihRI items _ env ctx (vals, env1) henv
                (valuesOk_replicate I.program items.length _ (by simp [valueOk, coreOk])) ha
              obtain rfl := exc_pure_eq_ok h
              refine ⟨?_, hRI.2⟩
              simp only [valueOk, coreOk]
              exact hRI.1
            · -- RecordUpdate
              rename_i re updates hexpr
              obtain ⟨a, ha, h⟩ := exc_bind_eq_ok h
              split at h
              rename_i rv env1
              have hE := ihE re env ctx (rv, env1) henv ha
              split at h
              · rename_i id vs hcore
                obtain ⟨b, hb, h⟩ := exc_bind_eq_ok h
                split at h
                rename_i vals env2
                have hvs : valuesOk I.program vs = true := by
                  have h2 := hE.1
                  rw [valueOk_core, hcore] at h2
                  simpa [coreOk] using h2
                have hRU := ihRU updates id vs env1 ctx (vals, env2) hE.2 hvs hb
                obtain rfl := exc_pure_eq_ok h
                refine ⟨?_, hRU.2⟩
                simp only [valueOk, coreOk]
                exact hRU.1
              · exact absurd h (by simp [exc_throw_eq])
            · -- ClassFunctionCall
              rename_i mid argIds hexpr
              obtain ⟨a, ha, h⟩ := exc_bind_eq_ok h
              split at h
              rename_i argVals env1
              have hL := ihL argIds env ctx (argVals, env1) henv ha
              obtain ⟨rv, hrv, h⟩ := exc_bind_eq_ok h
              have hr := ihCM mid argVals _ _ rv hL.1 hrv
              obtain rfl := exc_pure_eq_ok h
              exact ⟨hr, hL.2⟩
          · exact absurd h (by simp [exc_throw_eq])
        · exact absurd h (by simp [exc_throw_eq])
      · exact absurd h (by simp [exc_throw_eq])
    · -- evalList
      intro es env ctx r henv h
      cases es with
      | nil =>
        rw [evalList] at h
        obtain rfl := exc_pure_eq_ok h
        exact ⟨by rw [valuesOk], henv⟩
      | cons e rest =>
        rw [evalList] at h
        obtain ⟨a, ha, h⟩ := exc_bind_eq_ok h
        split at h
        rename_i v env1
        have hE := ihE e env ctx (v, env1) henv ha
        obtain ⟨b, hb, h⟩ := exc_bind_eq_ok h
        split at h
        rename_i vs env2
        have hL := ihL rest env1 ctx (vs, env2) hE.2 hb
        obtain rfl := exc_pure_eq_ok h
        refine ⟨?_, hL.2⟩
        rw [valuesOk]
        simp [hE.1, hL.1]
    · -- evalDo
      intro es acc env ctx r henv hacc h
      cases es with
      | nil =>
        rw [evalDo] at h
        obtain rfl := exc_pure_eq_ok h
        exact ⟨hacc, henv⟩
      | cons e rest =>
        rw [evalDo] at h
        obtain ⟨a, ha, h⟩ := exc_bind_eq_ok h
        split at h
        rename_i v env1
        have hE := ihE e env ctx (v, env1) henv ha
        exact ihD rest v env1 ctx r hE.2 hE.1 h
    · -- matchPattern
      intro pid v env ctx r henv hv h
      rw [matchPattern] at h
      split at h
      · split at h
        · -- Binding
          obtain rfl := exc_pure_eq_ok h
          exact envOk_add I.program henv pid hv
        · -- Tuple
          rename_i ids hpat
          split at h
          · rename_i vs hcore
            have hvs : valuesOk I.program vs = true := by
              rw [valueOk_core, hcore] at hv
              simpa [coreOk] using hv
            exact ihML ids vs env ctx r henv hvs h
          · obtain rfl := exc_pure_eq_ok h
            exact henv
        · -- Record
          rename_i ptid pids hpat
          split at h
          · rename_i tid vs hcore
            split at h
            · have hvs : valuesOk I.program vs = true := by
                rw [valueOk_core, hcore] at hv
                simpa [coreOk] using hv
              exact ihML pids vs env ctx r henv hvs h
            · obtain rfl := exc_pure_eq_ok h
              exact henv
          · obtain rfl := exc_pure_eq_ok h
            exact henv
        · -- Variant
          rename_i ptid pidx pids hpat
          split at h
          · rename_i tid idx vs hcore
            split at h
            · have hvs : valuesOk I.program vs = true := by
                rw [valueOk_core, hcore] at hv
                simp only [coreOk, Bool.and_eq_true] at hv
                exact hv.2
              exact ihML pids vs env ctx r henv hvs h
            · obtain rfl := exc_pure_eq_ok h
              exact henv
          · obtain rfl := exc_pure_eq_ok h
            exact henv
        · -- Guarded
          rename_i inner gid hpat
          obtain ⟨a, ha, h⟩ := exc_bind_eq_ok h
          split at h
          rename_i m env1
          have hM := ihM inner v env ctx (m, env1) henv hv ha
          split at h
          · obtain ⟨b, hb, h⟩ := exc_bind_eq_ok h
            split at h
            rename_i gv env2
            have hE := ihE gid env1 ctx (gv, env2) hM hb
            split at h
            · obtain rfl := exc_pure_eq_ok h
              exact hE.2
            · exact absurd h (by simp [exc_throw_eq])
          · obtain rfl := exc_pure_eq_ok h
            exact hM
        · -- Typed
          rename_i inner sig hpat
          exact ihM inner v env ctx r henv hv h
        · -- Wildcard
          obtain rfl := exc_pure_eq_ok h
          exact henv
        · -- IntegerLiteral
          split at h
          · obtain rfl := exc_pure_eq_ok h; exact henv
          · obtain rfl := exc_pure_eq_ok h; exact henv
        · -- FloatLiteral
          split at h
          · obtain rfl := exc_pure_eq_ok h; exact henv
          · obtain rfl := exc_pure_eq_ok h; exact henv
        · -- StringLiteral
          split at h
          · obtain rfl := exc_pure_eq_ok h; exact henv
          · obtain rfl := exc_pure_eq_ok h; exact henv
        · -- BoolLiteral
          split at h
          · obtain rfl := exc_pure_eq_ok h; exact henv
          · obtain rfl := exc_pure_eq_ok h; exact henv
      · exact absurd h (by simp [exc_throw_eq])
    · -- matchList
      intro pids vs env ctx r henv hvs h
      cases pids with
      | nil =>
        rw [matchList] at h
        obtain rfl := exc_pure_eq_ok h
        exact henv
      | cons pid rest =>
        cases vs with
        | nil =>
          rw [matchList] at h
          exact absurd h (by simp [exc_throw_eq])
        | cons v vrest =>
          rw [matchList] at h
          obtain ⟨hv1, hv2⟩ := valuesOk_cons I.program hvs
          obtain ⟨a, ha, h⟩ := exc_bind_eq_ok h
          split at h
          rename_i m env1
          have hM := ihM pid v env ctx (m, env1) henv hv1 ha
          split at h
          · exact ihML rest vrest env1 ctx r hM hv2 h
          · obtain rfl := exc_pure_eq_ok h
            exact hM
    · -- call
      intro cv args eid v hcv hargs h
      rw [call] at h
      split at h
      · rename_i c hcore
        obtain ⟨cf, cvals, cctx⟩ := c
        have hcvals : valuesOk I.program cvals = true := by
          rw [valueOk_core, hcore] at hcv
          simpa [coreOk] using hcv
        refine ihCL _ _ _ _ ?_ h
        simp only [CallableV.values_mk]
        rw [valuesOk_append]
        simp [hcvals, hargs]
      · exact absurd h (by simp [exc_throw_eq])
    · -- callLoop
      intro c ty eid v hvals h
      obtain ⟨cf, cvals, cctx⟩ := c
      simp only [CallableV.values_mk] at hvals
      rw [callLoop] at h
      split at h
      · rename_i fi hfi
        simp only [CallableV.function_id_mk, CallableV.values_mk,
          CallableV.sub_context_mk] at h
        split at h
        · obtain rfl := exc_pure_eq_ok h
          simp only [valueOk, coreOk]
          exact hvals
        · split at h
          · rename_i ty2 hty2
            obtain ⟨result, hx, h⟩ := exc_bind_eq_ok h
            have hres := ihX _ _ _ _ _ result
              (envOk_new I.program _ _ _
                (fun w hw => valuesOk_mem I.program
                  (valuesOk_take I.program hvals _) hw)) hx
            split at h
            · obtain rfl := exc_pure_eq_ok h
              exact hres
            · split at h
              · rename_i c2 hcore2
                obtain ⟨c2f, c2vals, c2ctx⟩ := c2
                have hc2 : valuesOk I.program c2vals = true := by
                  rw [valueOk_core, hcore2] at hres
                  simpa [coreOk] using hres
                refine ihCL _ _ _ _ ?_ h
                simp only [CallableV.values_mk]
                rw [valuesOk_append]
                simp [hc2, valuesOk_drop I.program hvals]
              · exact absurd h (by simp [exc_throw_eq])
          · exact absurd h (by simp [exc_throw_eq])
      · exact absurd h (by simp [exc_throw_eq])
    · -- execute
      intro fid env eid ctx ty v henv h
      rw [execute] at h
      split at h
      · rename_i f hf
        split at h
        · -- NamedFunction
          rename_i info hinfo
          split at h
          · obtain ⟨a, ha, h⟩ := exc_bind_eq_ok h
            obtain rfl := exc_pure_eq_ok h
            exact (ihE _ env ctx a henv ha).1
          · split at h
            · rename_i ext hextf
              exact hext info.module info.name ext env eid info.kind ty v hextf henv h
            · exact absurd h (by simp [exc_throw_eq])
        · -- Lambda
          rename_i info hinfo
          obtain ⟨a, ha, h⟩ := exc_bind_eq_ok h
          obtain rfl := exc_pure_eq_ok h
          exact (ihE _ env ctx a henv ha).1
        · -- VariantConstructor
          rename_i info hinfo
          split at h
          · rename_i td htd
            split at h
            · rename_i adt
              split at h
              · rename_i variant hvariant
                split at h
                · rename_i values hgather
                  obtain rfl := exc_pure_eq_ok h
                  rw [gatherArgs] at hgather
                  obtain ⟨hlen, hmem⟩ :=
                    gatherArgsFrom_spec env variant.items.length 0 values hgather
                  simp only [valueOk, coreOk]
                  have hvlen : variantItemsLen I.program info.type_id info.index =
                      some variant.items.length := by
                    simp only [variantItemsLen, htd]
                    rw [hvariant]
                    rfl
                  rw [hvlen, hlen]
                  simp only [beq_self_eq_true, Bool.true_and]
                  refine valuesOk_of_forall I.program ?_
                  intro w hw
                  obtain ⟨j, hj⟩ := hmem w hw
                  exact envOk_get_arg_by_index I.program henv hj
                · exact absurd h (by simp [exc_throw_eq])
              · exact absurd h (by simp [exc_throw_eq])
            · exact absurd h (by simp [exc_throw_eq])
          · exact absurd h (by simp [exc_throw_eq])
        · -- RecordConstructor
          rename_i info hinfo
          split at h
          · rename_i td htd
            split at h
            · rename_i record
              split at h
              · rename_i values hgather
                obtain rfl := exc_pure_eq_ok h
                rw [gatherArgs] at hgather
                obtain ⟨hlen, hmem⟩ :=
                  gatherArgsFrom_spec env record.fields.length 0 values hgather
                simp only [valueOk, coreOk]
                refine valuesOk_of_forall I.program ?_
                intro w hw
                obtain ⟨j, hj⟩ := hmem w hw
                exact envOk_get_arg_by_index I.program henv hj
              · exact absurd h (by simp [exc_throw_eq])
            · exact absurd h (by simp [exc_throw_eq])
          · exact absurd h (by simp [exc_throw_eq])
      · exact absurd h (by simp [exc_throw_eq])
    · -- callClassMember
      intro mid args eid ty v hargs h
      rw [callClassMember] at h
      repeat' split at h
      all_goals try exact (exc_throw_ne_ok h).elim
      all_goals simp only [] at h
      all_goals repeat' split at h
      all_goals try exact (exc_throw_ne_ok h).elim
      all_goals exact ihC _ _ _ _ (by simp [valueOk, coreOk, valuesOk]) hargs h
    · -- callSpecific
      intro args cn mn ty v hargs h
      rw [callSpecific] at h
      split at h
      · split at h
        · split at h
          · exact ihCM _ _ _ _ _ hargs h
          · exact absurd h (by simp [exc_throw_eq])
        · exact absurd h (by simp [exc_throw_eq])
      · exact absurd h (by simp [exc_throw_eq])
    · -- caseLoop
      intro cs cv env ctx v henv hcv h
      cases cs with
      | nil =>
        rw [caseLoop] at h
        exact absurd h (by simp [exc_throw_eq])
      | cons c rest =>
        rw [caseLoop] at h
        obtain ⟨a, ha, h⟩ := exc_bind_eq_ok h
        split at h
        rename_i m caseEnv1
        have hM := ihM c.pattern_id cv env.block_child ctx (m, caseEnv1)
          (envOk_block_child I.program henv) hcv ha
        split at h
        · obtain ⟨b, hb, h⟩ := exc_bind_eq_ok h
          obtain rfl := exc_pure_eq_ok h
          exact (ihE c.body caseEnv1 ctx b hM hb).1
        · exact ihCase rest cv env ctx v henv hcv h
    · -- recordInitLoop
      intro items vals env ctx r henv hvals h
      cases items with
      | nil =>
        rw [recordInitLoop] at h
        obtain rfl := exc_pure_eq_ok h
        exact ⟨hvals, henv⟩
      | cons item rest =>
        rw [recordInitLoop] at h
        obtain ⟨a, ha, h⟩ := exc_bind_eq_ok h
        split at h
        rename_i v env1
        have hE := ihE item.expr_id env ctx (v, env1) henv ha
        split at h
        · exact ihRI rest _ env1 ctx r hE.2
            (valuesOk_set I.program vals item.index v hvals hE.1) h
        · exact absurd h (by simp [exc_throw_eq])
    · -- recordUpdateLoop
      intro us id vals env ctx r henv hvals h
      cases us with
      | nil =>
        rw [recordUpdateLoop] at h
        exact absurd h (by simp [exc_throw_eq])
      | cons u urest =>
        rw [recordUpdateLoop] at h
        split at h
        · exact ihRI u.items vals env ctx r henv hvals h
        · exact ihRU urest id vals env ctx r henv hvals h


/-- The concrete result type used in the C9 witness constructor call. -/
def ty9 : ConcreteType := .Named "T" 0 []

/-- The single two-item variant of the C9 witness ADT. -/
def var9 : VariantD := ⟨"Mk", [⟨10⟩, ⟨11⟩]⟩

/-- The C9 witness ADT (typedef 0, one variant). -/
def adt9 : AdtD := ⟨"T", [var9]⟩

/-- The C9 witness variant-constructor function (explicit arity 2, no
implicit arguments, constructing variant 0 of typedef 0). -/
def fn9 : FunctionD := ⟨2, 0, .VariantConstructor ⟨0, 0⟩⟩

/-- A program with one ADT (typedef 0, one two-item variant) and its
variant-constructor function 0. -/
def P9w : Program :=
  { emptyProgram with
    functions := fun fid => if fid = 0 then some fn9 else none
    typedefs := fun tid => if tid = 0 then some (.Adt adt9) else none }

/-- The interpreter over `P9w`, with no extern functions. -/
def I9w : Interp := ⟨P9w, noExterns⟩

/-- The first constructor argument of the C9 witness call. -/
def a9 : Value := Value.mk (.Int 1) tyInt

/-- The second constructor argument of the C9 witness call. -/
def b9 : Value := Value.mk (.Int 2) tyInt

/-- The constructor-call environment of the C9 witness: two argument
values, no implicit arguments. -/
def env9 : Environment := Environment.new 0 [a9, b9] 0

/-- C9: the variant-arity invariant.  (i) Executing a variant
constructor for a variant with `variant.items.length` items gathers
exactly that many argument values from the environment and returns
`Variant(info.type_id, info.index, values)` with `values.length =
variant.items.length`.  (ii) Assuming the registered extern functions
preserve the invariant, every successful `evalExpr` started in an
invariant-satisfying environment returns an invariant-satisfying value
and environment (`valueOk` requires every `Variant(T, i, vs)` node to
satisfy `vs.length = typedefs[T].variants[i].items.length`), and
(iii) so does every successful `execute`: the invariant is preserved
by every evaluator operation that builds or consumes variant values. -/
theorem C9_variant_arity_invariant (I : Interp) (hext : externsOk I) :
    (∀ n fid env eid ctx ty v f info adt variant,
      I.program.functions fid = some f →
      f.info = .VariantConstructor info →
      I.program.typedefs info.type_id = some (.Adt adt) →
      adt.variants.get? info.index = some variant →
      execute I n fid env eid ctx ty = .ok v →
      ∃ values, gatherArgs env variant.items.length = some values ∧
        values.length = variant.items.length ∧
        v = Value.mk (.Variant info.type_id info.index values) ty) ∧
    (∀ n eid env ctx r, envOk I.program env → evalExpr I n eid env ctx = .ok r →
      valueOk I.program r.1 = true ∧ envOk I.program r.2) ∧
    (∀ n fid env eid ctx ty v, envOk I.program env →
      execute I n fid env eid ctx ty = .ok v → valueOk I.program v = true) := by
  refine ⟨?_, fun n => (valueOk_eval I hext n).1,
    fun n => (valueOk_eval I hext n).2.2.2.2.2.2.2.1⟩
  intro n fid env eid ctx ty v f info adt variant hf hinfo htd hvariant hx
  cases n with
  | zero =>
    rw [execute] at hx
    exact (exc_throw_ne_ok hx).elim
  | succ m =>
    rw [execute] at hx
    simp only [hf, hinfo, htd, hvariant] at hx
    split at hx
    · rename_i values hgather
      obtain rfl := exc_pure_eq_ok hx
      refine ⟨values, hgather, ?_, rfl⟩
      rw [gatherArgs] at hgather
      exact (gatherArgsFrom_spec env variant.items.length 0 values hgather).1
    · exact (exc_throw_ne_ok hx).elim

/-- Witness for C9 at a concrete constructor call: function 0 of `P9w`
builds variant 0 of typedef 0 from the two arguments in `env9`. -/
theorem C9_variant_arity_invariant_witness :
    externsOk I9w ∧
    (I9w.program.functions 0 = some fn9 ∧ fn9.info = .VariantConstructor ⟨0, 0⟩ ∧
      I9w.program.typedefs 0 = some (.Adt adt9) ∧ adt9.variants.get? 0 = some var9 ∧
      execute I9w 1 0 env9 none [] ty9 =
        .ok (Value.mk (.Variant 0 0 [a9, b9]) ty9)) ∧
    ∃ values, gatherArgs env9 var9.items.length = some values ∧
      values.length = var9.items.length ∧
      Value.mk (.Variant 0 0 [a9, b9]) ty9 =
        Value.mk (.Variant 0 0 values) ty9 := by
  have hext : externsOk I9w := by
    intro m nm f env cur kind ty v h henv hok
    simp [I9w, noExterns] at h
  have hexec : execute I9w 1 0 env9 none [] ty9 =
      .ok (Value.mk (.Variant 0 0 [a9, b9]) ty9) := by
    rw [execute]
    have hg : gatherArgs env9 var9.items.length = some [a9, b9] := rfl
    simp [I9w, P9w, fn9, adt9, emptyProgram, hg, exc_pure_eq]
  refine ⟨hext, ⟨rfl, rfl, rfl, rfl, hexec⟩, ?_⟩
  exact (C9_variant_arity_invariant I9w hext).1 1 0 env9 none [] ty9
    (Value.mk (.Variant 0 0 [a9, b9]) ty9) fn9 ⟨0, 0⟩ adt9 var9 rfl rfl rfl rfl hexec

end Siko
